import Mathlib

/-!
Verification development for the game-SDK lifecycle core.

The development shallowly embeds two source modules:

* `game-error.ts` — the error-wrapping class factory (`suffixGameErrorName`,
  the abstract `GameError` class and `newGameErrorClass`);
* `game-base.ts` (the newer, promise-based variant of `GameBase`) — the
  lifecycle state machine: `load`, `start`, `reset`, `join`,
  `lastGameResult`, and the event topics `loading`/`loaded`/`started`/`end`.

JavaScript strings are modelled as Lean `String`s with `endsWith` read as a
suffix test on the character data.  Promises are modelled by identifiers,
and the single-threaded event loop is modelled by a deterministic command
machine: every externally visible stimulus (an API call, an implementation
promise settling, the reset timer firing, a progress callback) is a command,
and each command is processed together with the complete microtask cascade
it causes — i.e. commands are delivered at microtask-quiescence points.
A promise settles at most once; late settlements of a lost race are no-ops,
exactly as in the JavaScript semantics.
-/

namespace GameSdk

/-! ## Strings and error wrapping (`game-error.ts`) -/

/-- Model of JavaScript `String.prototype.endsWith`: a suffix test on the
character data of the string. -/
def jsEndsWith (s suffix : String) : Bool :=
  suffix.data.isSuffixOf s.data

/-- Source constant `GAME_ERROR_SUFFIX = 'GameError'`. -/
def GAME_ERROR_SUFFIX : String := "GameError"

/-- Source function `suffixGameErrorName`: append the fixed suffix to the
game name unless the name already ends with it. -/
def suffixGameErrorName (name : String) : String :=
  if jsEndsWith name GAME_ERROR_SUFFIX then name else name ++ GAME_ERROR_SUFFIX

/-- Thrown JavaScript values, as far as the error wrapper can tell them
apart: either a value that is not an instance of the (non-exported)
abstract `GameError` class, represented by its stringification, or a
`GameError` instance.  `classId` is the identity of the concrete class the
instance was created by (each `newGameErrorClass` call creates a fresh
class, so `instanceof` on a concrete error class is an identity test). -/
inductive Thrown where
  | plain (str : String)
  | gameError (classId : Nat) (game : String) (name : String)
      (message : String) (originalError : Thrown)
deriving DecidableEq, Repr

/-- Model of JavaScript `Error.prototype.toString` (used by the template
literal `` `${originalError}` `` when the thrown value is an `Error`):
`name: message`, dropping the empty side. -/
def errorToString (name message : String) : String :=
  if message = "" then name
  else if name = "" then message
  else name ++ ": " ++ message

/-- Stringification of a thrown value. -/
def stringifyThrown : Thrown → String
  | .plain s => s
  | .gameError _ _ name message _ => errorToString name message

/-- Projections of the fields a wrapped error exposes. -/
def Thrown.errName : Thrown → Option String
  | .plain _ => none
  | .gameError _ _ name _ _ => some name

/-- Game field of a wrapped error. -/
def Thrown.errGame : Thrown → Option String
  | .plain _ => none
  | .gameError _ game _ _ _ => some game

/-- OriginalError field of a wrapped error. -/
def Thrown.errOriginal : Thrown → Option Thrown
  | .plain _ => none
  | .gameError _ _ _ _ original => some original

/-- Message field of a wrapped error. -/
def Thrown.errMessage : Thrown → Option String
  | .plain _ => none
  | .gameError _ _ _ message _ => some message

/-- Model of `err instanceof this.ErrorClass` for the concrete class with
identity `classId` produced by `newGameErrorClass`. -/
def isInstanceOfErrorClass (classId : Nat) : Thrown → Bool
  | .plain _ => false
  | .gameError cid _ _ _ _ => cid == classId

/-- Construction of a wrapped error by the class `newGameErrorClass game`
(identity `classId`), following the `GameError` constructor: the message is
the stringification of the thrown value; `this.originalError` is first set
to the thrown value; if the thrown value is itself a `GameError` instance,
`Object.assign` then copies its own enumerable fields (`originalError`,
`game`, `name`) onto the new object — after which the concrete subclass
field initialisers overwrite `game` and `name` with this class's values, so
only the copied `originalError` survives. -/
def GameError.construct (classId : Nat) (game : String) (err : Thrown) : Thrown :=
  let name := suffixGameErrorName game
  let message := stringifyThrown err
  match err with
  | .gameError _ _ _ _ inner => .gameError classId game name message inner
  | .plain _ => .gameError classId game name message err

/-- Source method `GameBase.newError`: return the value unchanged when it is
already an instance of this instance's error class, otherwise wrap it. -/
def newError (classId : Nat) (game : String) (err : Thrown) : Thrown :=
  if isInstanceOfErrorClass classId err then err else GameError.construct classId game err

/-! ## Lifecycle data model (`game-base.ts`, newer variant) -/

/-- Source enum `GameEndStatus` (newer variant): `Success`, `Failure`,
`Error`. -/
inductive GameEndStatus where
  | success
  | failure
  | error
deriving DecidableEq, Repr

/-- Source type `GameEndEvent`: the tagged union
`{status: S, metadata: EndMetadata[S]}`.  The implementation-defined
metadata of the `Success` and `Failure` statuses is drawn from the type
parameter `μ`; the metadata of the `Error` status is a wrapped game
error (`GameErrorInterface`). -/
inductive GameEndEvent (μ : Type) where
  | success (metadata : μ)
  | failure (metadata : μ)
  | error (metadata : Thrown)
deriving DecidableEq, Repr

/-- Status projection of a `GameEndEvent`. -/
def GameEndEvent.status : GameEndEvent μ → GameEndStatus
  | .success _ => .success
  | .failure _ => .failure
  | .error _ => .error

/-- Payload of the `"end"` event: a `GameEndEvent` or the `GameCanceled`
sentinel symbol. -/
inductive EndPayload (μ : Type) where
  | ev (e : GameEndEvent μ)
  | canceled
deriving DecidableEq, Repr

/-- Events emitted on the instance's event emitter (source `GameEvents`):
`loading` with payload `number | undefined`, `loaded`, `started`, and
`end` with a `GameEndEvent` or the `GameCanceled` sentinel. -/
inductive GEvent (μ : Type) where
  | loading (progress : Option Int)
  | loaded
  | started
  | endEvent (payload : EndPayload μ)
deriving DecidableEq, Repr

/-- Settled result of the promise returned by `start()`: fulfilled with a
`GameEndEvent`, rejected with the `GameCanceled` sentinel, or rejected with
an arbitrary thrown value. -/
inductive RetResult (μ : Type) where
  | ok (g : GameEndEvent μ)
  | canceled
  | thrown (e : Thrown)
deriving DecidableEq, Repr

/-- Control point of one run's promise executor body (the async function
passed to `new Promise` in `start()`):

* `awaitingLoad` — suspended at `await this.load()`;
* `racingCancel` — `startImpl` has been invoked and the body is suspended
  at `await Promise.race([cancelSignal, gamePromise])`;
* `racingReset` — the cancellation signal won and the body is suspended at
  `await Promise.race([resetPromise, gamePromise]).catch(() => {})`;
* `settled` — the returned promise has settled (and its `then`/`catch`/
  `finally` handlers have run). -/
inductive RunPhase (μ : Type) where
  | awaitingLoad
  | racingCancel
  | racingReset
  | settled (result : RetResult μ)
deriving DecidableEq, Repr

/-- Whether a phase is `settled`. -/
def RunPhase.isSettled : RunPhase μ → Bool
  | .awaitingLoad => false
  | .racingCancel => false
  | .racingReset => false
  | .settled _ => true

/-- Whether a run body is suspended at `await this.load()`. -/
def RunPhase.isAwaitingLoad : RunPhase μ → Bool
  | .awaitingLoad => true
  | .racingCancel => false
  | .racingReset => false
  | .settled _ => false

/-- Whether a run body is suspended on the reset promise. -/
def RunPhase.isRacingReset : RunPhase μ → Bool
  | .awaitingLoad => false
  | .racingCancel => false
  | .racingReset => true
  | .settled _ => false

/-- One run started by `start()`: its identity (which doubles as the
identity of the frozen `RunningHandle` and of the run's cancellation
signal), the identity of the promise `start()` returned, the body's control
point, and whether `cancel()` has been called (the single-fire cancellation
signal has resolved to `GameCanceled`). -/
structure Run (μ : Type) where
  runId : Nat
  retPid : Nat
  phase : RunPhase μ
  cancelFired : Bool
deriving DecidableEq, Repr

/-- Result the `Promise.race([timeout, resetImpl()])` inside `#doReset`
settles with: the timer and a resolving `resetImpl` fulfil it, a rejecting
`resetImpl` rejects it. -/
inductive RaceResult where
  | ok
  | err (e : Thrown)
deriving DecidableEq, Repr

/-- Observable settlement of a promise returned by `reset()`: it either
fulfils (with `undefined`) or rejects with a value. -/
inductive ResetOutcome where
  | ok
  | err (e : Thrown)
deriving DecidableEq, Repr

/-- The in-flight part of one `reset()` call while a run was active: the
identity of the promise `#doReset` returned (which is the `#resetPromise`)
and the timeout the timer was armed with.  The record exists exactly while
the inner `Promise.race([timeout, resetImpl()])` is unsettled. -/
structure ResetChain where
  pid : Nat
  timeoutMs : Nat
deriving DecidableEq, Repr

/-- The complete instance state of the newer `GameBase`, together with the
bookkeeping the embedding needs: the event log, the run records, the
in-flight reset chain, a log of settlements of promises returned by
`reset()`, a fresh-identifier counter, and counters of how many times each
abstract implementation hook has been invoked. -/
structure GameBase (μ : Type) where
  name : String
  classId : Nat
  defaultResetTimeoutMs : Nat := 5000
  loaded : Bool := false
  loadingPromise : Option Nat := none
  runningHandle : Option Nat := none
  resetPromise : Option Nat := none
  lastEnd : Option (GameEndEvent μ) := none
  events : List (GEvent μ) := []
  runs : List (Run μ) := []
  resetChain : Option ResetChain := none
  resetLog : List (Nat × ResetOutcome) := []
  nextId : Nat := 0
  loadImplCalls : Nat := 0
  startImplCalls : Nat := 0
  resetImplCalls : Nat := 0
deriving DecidableEq, Repr

/-- Initial state of a `GameBase` instance named `name`, whose
`ErrorClass = newGameErrorClass(name)` has identity `classId`. -/
def GameBase.init (μ : Type) (name : String) (classId : Nat) : GameBase μ :=
  { name := name, classId := classId }

/-- Source method `join()`: the promise of the currently active run, read
from `this.#runningHandle?.startPromise`. -/
def GameBase.findRun (s : GameBase μ) (runId : Nat) : Option (Run μ) :=
  s.runs.find? (fun r => r.runId == runId)

/-- Update the run record with the given identity. -/
def GameBase.updateRun (s : GameBase μ) (runId : Nat) (f : Run μ → Run μ) : GameBase μ :=
  { s with runs := s.runs.map (fun r => if r.runId == runId then f r else r) }

/-- Source method `join()`: `this.#runningHandle?.startPromise` — the
promise returned by the active run's `start()` call, or `undefined`. -/
def GameBase.join (s : GameBase μ) : Option Nat :=
  (s.runningHandle.bind s.findRun).map (·.retPid)

/-- Source getter `lastGameResult`: `this.#lastEnd`. -/
def GameBase.lastGameResult (s : GameBase μ) : Option (GameEndEvent μ) :=
  s.lastEnd

/-! ## Lifecycle operations

Each definition mirrors one function or continuation of the source; the
cascades a settlement causes are performed eagerly, which is sound because
external stimuli are only delivered at microtask-quiescence points. -/

/-- Settlement of the promise `ret` returned by `start()` for run `runId`,
together with the reactions registered on it in `start()`:

* `ret.then(...)` — on fulfilment, record `#lastEnd` and emit `"end"` with
  the outcome;
* `.catch(...)` — on rejection with `GameCanceled`, emit `"end"` with the
  sentinel and leave `#lastEnd` alone; on any other rejection, build the
  `GameEndStatus.Error` outcome with `newError`, record it in `#lastEnd`
  and emit `"end"` with it;
* `.finally(...)` — call `cancel()` (resolving the run's cancellation
  signal, which has no further effect) and clear `#runningHandle` if it
  still is this run's handle.

A promise settles at most once, so a run whose phase is already `settled`
is left untouched. -/
def GameBase.settleRet (s : GameBase μ) (runId : Nat) (result : RetResult μ) : GameBase μ :=
  match s.findRun runId with
  | none => s
  | some r =>
    match r.phase with
    | .settled _ => s
    | _ =>
      let s1 := s.updateRun runId (fun r => { r with phase := .settled result })
      let s2 :=
        match result with
        | .ok g =>
            { s1 with lastEnd := some g, events := s1.events ++ [GEvent.endEvent (EndPayload.ev g)] }
        | .canceled =>
            { s1 with events := s1.events ++ [GEvent.endEvent EndPayload.canceled] }
        | .thrown e =>
            let g : GameEndEvent μ := .error (newError s1.classId s1.name e)
            { s1 with lastEnd := some g, events := s1.events ++ [GEvent.endEvent (EndPayload.ev g)] }
      let s3 := s2.updateRun runId (fun r => { r with cancelFired := true })
      if s3.runningHandle == some runId then { s3 with runningHandle := none } else s3

/-- Continuation of a run body that has observed `GameCanceled` winning
`Promise.race([cancelSignal, gamePromise])`: read `this.#resetPromise`; if
it is a promise, suspend on
`Promise.race([resetPromise, gamePromise]).catch(() => {})` before
rejecting; otherwise reject with `GameCanceled` at once. -/
def GameBase.onCanceledObserved (s : GameBase μ) (runId : Nat) : GameBase μ :=
  match s.resetPromise with
  | some _ => s.updateRun runId (fun r => { r with phase := .racingReset })
  | none => s.settleRet runId .canceled

/-- Continuation of a run body resuming after `await this.load()`
succeeded: invoke `this.startImpl(...)` (creating the game promise) and
suspend on `Promise.race([cancelSignal, gamePromise])`.  When the
cancellation signal has already fired, the race resolves with the sentinel
immediately. -/
def GameBase.startBodyAfterLoad (s : GameBase μ) (runId : Nat) : GameBase μ :=
  match s.findRun runId with
  | none => s
  | some r =>
    match r.phase with
    | .awaitingLoad =>
      let s1 := { s with startImplCalls := s.startImplCalls + 1 }
      if r.cancelFired then s1.onCanceledObserved runId
      else s1.updateRun runId (fun r => { r with phase := .racingCancel })
    | _ => s

/-- Resolution of a run's single-fire cancellation signal by `cancel()`:
mark it fired, and when the body was suspended on
`Promise.race([cancelSignal, gamePromise])`, resume it with the sentinel.
A signal fires at most once. -/
def GameBase.fireCancelSignal (s : GameBase μ) (runId : Nat) : GameBase μ :=
  match s.findRun runId with
  | none => s
  | some r =>
    if r.cancelFired then s
    else
      let s1 := s.updateRun runId (fun r => { r with cancelFired := true })
      match r.phase with
      | .racingCancel => s1.onCanceledObserved runId
      | _ => s1

/-- Resume every listed run body suspended at `await this.load()` after the
loading promise fulfilled. -/
def GameBase.resumeLoadWaiters (s : GameBase μ) : List Nat → GameBase μ
  | [] => s
  | runId :: rest => (s.startBodyAfterLoad runId).resumeLoadWaiters rest

/-- Reject every listed run body suspended at `await this.load()` after the
loading promise rejected: the body's `catch` rejects `ret` with the error. -/
def GameBase.rejectLoadWaiters (s : GameBase μ) (err : Thrown) : List Nat → GameBase μ
  | [] => s
  | runId :: rest => ((s.settleRet runId (.thrown err)).rejectLoadWaiters err) rest

/-- Run identities of the runs suspended at `await this.load()`. -/
def GameBase.loadWaiters (s : GameBase μ) : List Nat :=
  (s.runs.filter (fun r => r.phase.isAwaitingLoad)).map (·.runId)

/-- Settlement of the pending loading operation (`this.loadImpl(...)`
settling).  On success the async body of `load()` resumes: set
`this.#loaded = true`, emit `"loaded"`, and fulfil `#loadingPromise`, which
resumes the run bodies awaiting it; on failure `#loadingPromise` rejects,
which rejects those bodies.  Either way the `finally` registered in
`load()` then clears `#loadingPromise`. -/
def GameBase.settleLoad (s : GameBase μ) (ok : Bool) (err : Thrown) : GameBase μ :=
  match s.loadingPromise with
  | none => s
  | some _ =>
    if ok then
      let s1 := { s with loaded := true, events := s.events ++ [GEvent.loaded] }
      let s2 := s1.resumeLoadWaiters s1.loadWaiters
      { s2 with loadingPromise := none }
    else
      let s1 := s.rejectLoadWaiters err s.loadWaiters
      { s1 with loadingPromise := none }

/-- Reject every listed run body suspended at
`Promise.race([resetPromise, gamePromise])` after the reset promise
settled: the `.catch(() => {})` swallows the race's outcome and the body
rejects `ret` with `GameCanceled`. -/
def GameBase.rejectResetWaiters (s : GameBase μ) : List Nat → GameBase μ
  | [] => s
  | runId :: rest => (s.settleRet runId .canceled).rejectResetWaiters rest

/-- Run identities of the runs suspended on the reset promise. -/
def GameBase.resetWaiters (s : GameBase μ) : List Nat :=
  (s.runs.filter (fun r => r.phase.isRacingReset)).map (·.runId)

/-- Settlement of the inner `Promise.race([timeout, resetImpl()])` of
`#doReset` and the cascade it causes:

* `.then(() => {}, () => {})` maps both a fulfilment and a rejection of the
  race to a void fulfilment, so the promise `reset()` returned always
  fulfils;
* `.finally(timeoutCleanup)` clears the timer;
* the fulfilment of `#resetPromise` then (a) runs the `finally` registered
  in `reset()`, clearing `this.#resetPromise`, and (b) resumes the run
  bodies racing the reset promise, which reject with `GameCanceled`. -/
def GameBase.settleResetChain (s : GameBase μ) (raceResult : RaceResult) : GameBase μ :=
  match s.resetChain with
  | none => s
  | some c =>
    let settled : ResetOutcome :=
      match raceResult with
      | .ok => .ok
      | .err _ => .ok
    let s1 := { s with resetChain := none, resetLog := s.resetLog ++ [(c.pid, settled)] }
    let s2 := { s1 with resetPromise := none }
    s2.rejectResetWaiters s2.resetWaiters

/-- Source method `load()`: return an already-fulfilled fresh promise when
`this.#loaded`; return the identical pending `#loadingPromise` when a load
is in flight; otherwise emit `"loading"` with `undefined`, invoke
`this.loadImpl(...)` and store the pending promise in `#loadingPromise`.
The returned triple is the promise's identity, whether it is already
fulfilled, and the new state. -/
def GameBase.load (s : GameBase μ) : Nat × Bool × GameBase μ :=
  if s.loaded then
    (s.nextId, true, { s with nextId := s.nextId + 1 })
  else
    match s.loadingPromise with
    | some p => (p, false, s)
    | none =>
      let pid := s.nextId
      let s1 := { s with
        nextId := s.nextId + 1,
        events := s.events ++ [GEvent.loading none],
        loadImplCalls := s.loadImplCalls + 1,
        loadingPromise := some pid }
      (pid, false, s1)

/-- Source method `start()`: throw `GameAlreadyRunning` synchronously when
`this.#runningHandle` is set; otherwise clear `#lastEnd`, create the
cancellation signal and the promise `ret` whose executor body runs up to
`await this.load()` (invoking `load()` synchronously), register the
settlement handlers, store the frozen running handle, emit `"started"`,
and return `ret`.  When `load()` returned an already-fulfilled promise,
the body resumes in the microtask cascade of the same stimulus. -/
def GameBase.start (s : GameBase μ) : Except Unit (Nat × GameBase μ) :=
  if s.runningHandle.isSome then .error ()
  else
    let s0 := { s with lastEnd := none }
    let runId := s0.nextId
    let retPid := s0.nextId + 1
    let s1 := { s0 with nextId := s0.nextId + 2 }
    let (_, loadDone, s2) := s1.load
    let s3 := { s2 with
      runs := s2.runs ++ [{ runId := runId, retPid := retPid,
                            phase := .awaitingLoad, cancelFired := false }],
      runningHandle := some runId,
      events := s2.events ++ [GEvent.started] }
    let s4 := if loadDone then s3.startBodyAfterLoad runId else s3
    .ok (retPid, s4)

/-- Source method `reset(timeoutMs)` together with `#doReset`:

* when `this.#resetPromise` is set, return the identical pending promise;
* otherwise run `#doReset`: when a run is active, call
  `runningHandle.cancel()`, arm the timer, invoke `this.resetImpl()` and
  build `Promise.race([timeout, resetImpl()]).then(...).finally(...)`;
  the `finally` block of `#doReset` runs `#resetState()` synchronously
  (clearing `#runningHandle` and `#lastEnd`) before `reset()` stores and
  returns the promise; the cancellation signal's reaction then runs in the
  microtask cascade;
* when no run is active, `#doReset` returns `Promise.resolve()` after
  `#resetState()`; the settled promise's `finally` clears
  `this.#resetPromise` again within the same cascade. -/
def GameBase.reset (s : GameBase μ) (timeoutMs : Option Nat) : Nat × GameBase μ :=
  match s.resetPromise with
  | some p => (p, s)
  | none =>
    let t := timeoutMs.getD s.defaultResetTimeoutMs
    let pid := s.nextId
    let s0 := { s with nextId := s.nextId + 1 }
    match s0.runningHandle with
    | some runId =>
      let s1 := { s0 with
        resetImplCalls := s0.resetImplCalls + 1,
        resetChain := some { pid := pid, timeoutMs := t },
        runningHandle := none,
        lastEnd := none,
        resetPromise := some pid }
      (pid, s1.fireCancelSignal runId)
    | none =>
      let s1 := { s0 with
        runningHandle := none,
        lastEnd := none,
        resetLog := s0.resetLog ++ [(pid, .ok)],
        resetPromise := none }
      (pid, s1)

/-- Settlement of the game promise created by `this.startImpl(...)` for run
`runId`.  A body racing the cancellation signal resumes with the outcome
(resolving `ret`) or with the thrown error (rejecting `ret`); a body racing
the reset promise resumes — through the `.catch(() => {})` — and rejects
`ret` with `GameCanceled`; otherwise the settlement is a lost race and a
no-op. -/
def GameBase.settleGame (s : GameBase μ) (runId : Nat)
    (res : Except Thrown (GameEndEvent μ)) : GameBase μ :=
  match s.findRun runId with
  | none => s
  | some r =>
    match r.phase with
    | .racingCancel =>
      match res with
      | .ok g => s.settleRet runId (.ok g)
      | .error e => s.settleRet runId (.thrown e)
    | .racingReset => s.settleRet runId .canceled
    | _ => s

/-- Source callback `#loadingProgressCb`: ignore reports after loading has
completed, otherwise emit `"loading"` with the progress clamped to
`[0, 100]`. -/
def GameBase.reportProgress (s : GameBase μ) (p : Int) : GameBase μ :=
  if s.loaded then s
  else { s with events := s.events ++ [GEvent.loading (some (max 0 (min 100 p)))] }

/-- External stimuli of one instance, delivered at microtask-quiescence
points: the public API calls, the settlement of each implementation hook's
promise, the reset timer firing, and a loading-progress report. -/
inductive Cmd (μ : Type) where
  | load
  | start
  | reset (timeoutMs : Option Nat)
  | settleLoad (ok : Bool) (err : Thrown)
  | settleGame (runId : Nat) (res : Except Thrown (GameEndEvent μ))
  | settleReset (ok : Bool) (err : Thrown)
  | fireResetTimer
  | progress (p : Int)

/-- Process one stimulus together with its microtask cascade.  The value an
API call returns is discarded here; the call functions themselves are used
where a claim is about the returned promise. -/
def GameBase.step (s : GameBase μ) : Cmd μ → GameBase μ
  | .load => s.load.2.2
  | .start =>
    match s.start with
    | .ok (_, s') => s'
    | .error _ => s
  | .reset t => (s.reset t).2
  | .settleLoad ok err => s.settleLoad ok err
  | .settleGame runId res => s.settleGame runId res
  | .settleReset ok err => s.settleResetChain (if ok then .ok else .err err)
  | .fireResetTimer => s.settleResetChain .ok
  | .progress p => s.reportProgress p

/-- Process a list of stimuli in order. -/
def GameBase.exec (s : GameBase μ) : List (Cmd μ) → GameBase μ
  | [] => s
  | c :: cs => (s.step c).exec cs

/-! ## Structural lemmas about the run list -/

theorem find?_decomp {α : Type _} (pq : α → Bool) (l : List α) (r : α)
    (h : l.find? pq = some r) :
    ∃ pre post, l = pre ++ r :: post ∧ (∀ x ∈ pre, pq x = false) ∧ pq r = true := by
  induction l with
  | nil => simp at h
  | cons a l ih =>
    by_cases ha : pq a
    · rw [List.find?_cons_of_pos _ ha] at h
      obtain rfl : a = r := by simpa using h
      exact ⟨[], l, rfl, by simp, ha⟩
    · rw [List.find?_cons_of_neg _ ha] at h
      obtain ⟨pre, post, hl, hpre, hr⟩ := ih h
      exact ⟨a :: pre, post, by simp [hl], by simpa [ha] using hpre, hr⟩

theorem map_update_of_ne (i : Nat) (f : Run μ → Run μ) (l : List (Run μ))
    (h : ∀ x ∈ l, x.runId ≠ i) :
    l.map (fun x => if x.runId == i then f x else x) = l := by
  induction l with
  | nil => rfl
  | cons a l ih =>
    have ha : (a.runId == i) = false := by simpa using h a (by simp)
    have ht : ∀ x ∈ l, x.runId ≠ i := fun x hx => h x (by simp [hx])
    simp only [List.map_cons, ha, Bool.false_eq_true, if_false, ih ht]

theorem filter_shape {α : Type _} (pq : α → Bool) (pre post : List α) (x : α)
    (h : ∀ y ∈ pre ++ post, pq y = false) :
    (pre ++ x :: post).filter pq = if pq x then [x] else [] := by
  have hpre : pre.filter pq = [] := by
    rw [List.filter_eq_nil_iff]
    intro y hy
    simp [h y (by simp [hy])]
  have hpost : post.filter pq = [] := by
    rw [List.filter_eq_nil_iff]
    intro y hy
    simp [h y (by simp [hy])]
  rcases hx : pq x with _ | _ <;>
    simp [List.filter_append, List.filter_cons, hx, hpre, hpost]

/-- Decomposition of the run list around the record `findRun` returns, when
run identities are pairwise distinct. -/
theorem runs_decomp (s : GameBase μ) (i : Nat) (r : Run μ)
    (hfind : s.findRun i = some r)
    (huniq : s.runs.Pairwise (fun a b => a.runId ≠ b.runId)) :
    ∃ pre post, s.runs = pre ++ r :: post ∧ (∀ x ∈ pre ++ post, x.runId ≠ i) ∧
      r.runId = i := by
  obtain ⟨pre, post, hl, hpre, hr⟩ := find?_decomp _ _ _ hfind
  have hri : r.runId = i := by simpa using hr
  refine ⟨pre, post, hl, ?_, hri⟩
  intro x hx
  rcases List.mem_append.mp hx with hx | hx
  · have := hpre x hx
    simpa using this
  · rw [hl] at huniq
    have := (List.pairwise_append.mp huniq).2.2
    have hne : r.runId ≠ x.runId :=
      (List.pairwise_cons.mp (List.pairwise_append.mp huniq).2.1).1 x hx
    omega

theorem updateRun_shape (s : GameBase μ) (pre post : List (Run μ)) (r : Run μ) (i : Nat)
    (f : Run μ → Run μ) (hruns : s.runs = pre ++ r :: post) (hr : r.runId = i)
    (hothers : ∀ x ∈ pre ++ post, x.runId ≠ i) :
    s.updateRun i f = { s with runs := pre ++ f r :: post } := by
  have hpre : ∀ x ∈ pre, x.runId ≠ i := fun x hx => hothers x (by simp [hx])
  have hpost : ∀ x ∈ post, x.runId ≠ i := fun x hx => hothers x (by simp [hx])
  simp only [GameBase.updateRun, hruns, List.map_append, List.map_cons,
    map_update_of_ne _ _ _ hpre, map_update_of_ne _ _ _ hpost, hr, beq_self_eq_true,
    if_true]

theorem find?_append_shape (pre post : List (Run μ)) (r : Run μ) (i : Nat)
    (hr : r.runId = i) (hpre : ∀ x ∈ pre, x.runId ≠ i) :
    (pre ++ r :: post).find? (fun x => x.runId == i) = some r := by
  induction pre with
  | nil => simp [List.find?_cons_of_pos, hr]
  | cons a pre ih =>
    rw [List.cons_append, List.find?_cons_of_neg _ (by simpa using hpre a (by simp))]
    exact ih (fun x hx => hpre x (by simp [hx]))

theorem findRun_shape (s : GameBase μ) (pre post : List (Run μ)) (r : Run μ) (i : Nat)
    (hruns : s.runs = pre ++ r :: post) (hr : r.runId = i)
    (hothers : ∀ x ∈ pre ++ post, x.runId ≠ i) :
    s.findRun i = some r := by
  have hpre : ∀ x ∈ pre, x.runId ≠ i := fun x hx => hothers x (by simp [hx])
  simp only [GameBase.findRun, hruns]
  exact find?_append_shape pre post r i hr hpre

/-- Explicit form of `settleRet` on a decomposed run list whose target run
has not settled yet. -/
theorem settleRet_shape (s : GameBase μ) (pre post : List (Run μ)) (r : Run μ) (i : Nat)
    (res : RetResult μ)
    (hruns : s.runs = pre ++ r :: post) (hr : r.runId = i)
    (hothers : ∀ x ∈ pre ++ post, x.runId ≠ i)
    (hns : r.phase.isSettled = false) :
    s.settleRet i res =
      let s2 : GameBase μ :=
        match res with
        | .ok g => { s with lastEnd := some g,
                            events := s.events ++ [GEvent.endEvent (EndPayload.ev g)] }
        | .canceled => { s with events := s.events ++ [GEvent.endEvent EndPayload.canceled] }
        | .thrown e =>
            let g : GameEndEvent μ := .error (newError s.classId s.name e)
            { s with lastEnd := some g,
                     events := s.events ++ [GEvent.endEvent (EndPayload.ev g)] }
      { s2 with
        runs := pre ++ { r with phase := .settled res, cancelFired := true } :: post,
        runningHandle := if s.runningHandle == some i then none else s.runningHandle } := by
  have hfind := findRun_shape s pre post r i hruns hr hothers
  rcases hp : r.phase with _ | _ | _ | res0
  case settled => rw [hp] at hns; simp [RunPhase.isSettled] at hns
  all_goals
    simp only [GameBase.settleRet, hfind, hp]
    rw [updateRun_shape s pre post r i _ hruns hr hothers]
    rw [updateRun_shape _ pre post { r with phase := RunPhase.settled res } i _
      (by cases res <;> rfl) hr hothers]
    rcases res with g | _ | e <;>
      (cases hb : s.runningHandle == some i <;> simp only [hb, Bool.false_eq_true, if_false, if_true])

/-- Explicit form of `fireCancelSignal` on a run racing the cancellation
signal while a reset promise is pending. -/
theorem fireCancel_shape_racing (s : GameBase μ) (pre post : List (Run μ)) (r : Run μ)
    (i p : Nat)
    (hruns : s.runs = pre ++ r :: post) (hr : r.runId = i)
    (hothers : ∀ x ∈ pre ++ post, x.runId ≠ i)
    (hphase : r.phase = .racingCancel) (hcf : r.cancelFired = false)
    (hrpSome : s.resetPromise = some p) :
    s.fireCancelSignal i =
      { s with runs := pre ++ { r with cancelFired := true, phase := .racingReset } :: post } := by
  have hfind := findRun_shape s pre post r i hruns hr hothers
  simp only [GameBase.fireCancelSignal, hfind, hcf, Bool.false_eq_true, if_false, hphase]
  rw [updateRun_shape s pre post r i _ hruns hr hothers]
  simp only [GameBase.onCanceledObserved, hrpSome]
  rw [updateRun_shape _ pre post { r with cancelFired := true } i _ rfl hr hothers]

/-- Explicit form of `reset` called on an instance with an active run: the
cancellation signal fires, the run body moves on to racing the reset
promise, the handle and the last result are cleared synchronously, and the
timeout race is armed. -/
theorem reset_active_shape (s : GameBase μ) (pre post : List (Run μ)) (r : Run μ) (i : Nat)
    (t : Option Nat)
    (hruns : s.runs = pre ++ r :: post) (hr : r.runId = i)
    (hothers : ∀ x ∈ pre ++ post, x.runId ≠ i)
    (hphase : r.phase = .racingCancel) (hcf : r.cancelFired = false)
    (hhandle : s.runningHandle = some i) (hrp : s.resetPromise = none) :
    s.reset t = (s.nextId,
      { s with
        nextId := s.nextId + 1,
        resetImplCalls := s.resetImplCalls + 1,
        resetChain := some { pid := s.nextId, timeoutMs := t.getD s.defaultResetTimeoutMs },
        runningHandle := none,
        lastEnd := none,
        resetPromise := some s.nextId,
        runs := pre ++ { r with cancelFired := true, phase := .racingReset } :: post }) := by
  simp only [GameBase.reset, hrp, hhandle]
  rw [fireCancel_shape_racing _ pre post r i s.nextId ?h1 hr hothers hphase hcf ?h2]
  case h1 => exact hruns
  case h2 => rfl

theorem isRacingReset_eq_false_of_isSettled (ph : RunPhase μ) (h : ph.isSettled = true) :
    ph.isRacingReset = false := by
  cases ph <;> simp_all [RunPhase.isSettled, RunPhase.isRacingReset]

/-- The reset waiters of a decomposed run list whose target races the reset
promise while every other run has settled. -/
theorem resetWaiters_shape_waiting (s : GameBase μ) (pre post : List (Run μ)) (r : Run μ)
    (i : Nat)
    (hruns : s.runs = pre ++ r :: post) (hr : r.runId = i)
    (hset : ∀ x ∈ pre ++ post, x.phase.isSettled = true)
    (hphase : r.phase = .racingReset) :
    s.resetWaiters = [i] := by
  have hpw : ∀ y ∈ pre ++ post, (fun x : Run μ => x.phase.isRacingReset) y = false :=
    fun y hy => isRacingReset_eq_false_of_isSettled _ (hset y hy)
  simp only [GameBase.resetWaiters, hruns,
    filter_shape (fun x : Run μ => x.phase.isRacingReset) pre post r hpw,
    hphase]
  simp [RunPhase.isRacingReset, hr]

/-- No reset waiters exist when every run has settled. -/
theorem resetWaiters_quiet (s : GameBase μ)
    (hset : ∀ x ∈ s.runs, x.phase.isSettled = true) :
    s.resetWaiters = [] := by
  have : s.runs.filter (fun x : Run μ => x.phase.isRacingReset) = [] := by
    rw [List.filter_eq_nil_iff]
    intro x hx
    simp [isRacingReset_eq_false_of_isSettled _ (hset x hx)]
  simp [GameBase.resetWaiters, this]

/-- Explicit form of the reset race settling while one run races the reset
promise: the promise returned by `reset()` fulfils, the timer and the
`#resetPromise` handle are cleared, and the waiting run rejects with
`GameCanceled`, emitting exactly one `"end"` event with the sentinel. -/
theorem settleResetChain_shape_waiting (s : GameBase μ) (pre post : List (Run μ)) (r : Run μ)
    (i : Nat) (c : ResetChain) (raceRes : RaceResult)
    (hruns : s.runs = pre ++ r :: post) (hr : r.runId = i)
    (hothers : ∀ x ∈ pre ++ post, x.runId ≠ i)
    (hset : ∀ x ∈ pre ++ post, x.phase.isSettled = true)
    (hphase : r.phase = .racingReset)
    (hchain : s.resetChain = some c) :
    s.settleResetChain raceRes =
      { s with
        resetChain := none,
        resetLog := s.resetLog ++ [(c.pid, ResetOutcome.ok)],
        resetPromise := none,
        runs := pre ++ { r with phase := .settled .canceled, cancelFired := true } :: post,
        events := s.events ++ [GEvent.endEvent EndPayload.canceled],
        runningHandle := if s.runningHandle == some i then none else s.runningHandle } := by
  cases raceRes <;>
    (simp only [GameBase.settleResetChain, hchain]
     rw [resetWaiters_shape_waiting _ pre post r i ?hruns1 hr ?hset1 hphase]
     case hruns1 => exact hruns
     case hset1 => exact hset
     simp only [GameBase.rejectResetWaiters]
     rw [settleRet_shape _ pre post r i RetResult.canceled ?hruns2 hr hothers ?hns]
     case hruns2 => exact hruns
     case hns => rw [hphase]; rfl)

/-- Explicit form of the reset race settling when every run has already
settled: only the bookkeeping moves, and no event is emitted. -/
theorem settleResetChain_shape_quiet (s : GameBase μ) (c : ResetChain) (raceRes : RaceResult)
    (hset : ∀ x ∈ s.runs, x.phase.isSettled = true)
    (hchain : s.resetChain = some c) :
    s.settleResetChain raceRes =
      { s with resetChain := none, resetLog := s.resetLog ++ [(c.pid, ResetOutcome.ok)],
               resetPromise := none } := by
  cases raceRes <;>
    (simp only [GameBase.settleResetChain, hchain]
     rw [resetWaiters_quiet _ ?hset1]
     simp only [GameBase.rejectResetWaiters]
     case hset1 => exact hset)
/-- An instance with an active run `i` whose record is `r`: the run has
started (the body races the cancellation signal, which has not fired) and
no reset is in flight; run identities are pairwise distinct and every
other run has settled. -/
structure ActiveRun (s : GameBase μ) (i : Nat) (r : Run μ) : Prop where
  hfind : s.findRun i = some r
  huniq : s.runs.Pairwise (fun a b => a.runId ≠ b.runId)
  hquiet : ∀ x ∈ s.runs, x.runId = i ∨ x.phase.isSettled = true
  hphase : r.phase = .racingCancel
  hcf : r.cancelFired = false
  hhandle : s.runningHandle = some i
  hrp : s.resetPromise = none
  hchain : s.resetChain = none

/-! ## String lemmas for the error-name suffix -/

theorem jsEndsWith_append_suffix (g : String) :
    jsEndsWith (g ++ GAME_ERROR_SUFFIX) GAME_ERROR_SUFFIX = true := by
  simp [jsEndsWith, List.isSuffixOf_iff_suffix, String.data_append, List.suffix_append]

theorem suffixGameErrorName_idem (g : String) :
    suffixGameErrorName (suffixGameErrorName g) = suffixGameErrorName g := by
  unfold suffixGameErrorName
  by_cases h : jsEndsWith g GAME_ERROR_SUFFIX = true
  · simp [h]
  · simp [h, jsEndsWith_append_suffix]

/-! ## Claims -/

/-- C7: error wrapping is idempotent and never double-suffixes — a value
already an instance of this instance's error class is returned unchanged
(so wrapping twice through the same instance equals wrapping once); the
wrapped error's name is the game name with the fixed suffix appended only
when not already present, and the suffixing operation is idempotent, so
wrapping a plain error through two distinct instances never yields a
doubly-suffixed name; the wrapped error carries the original thrown value
with a message derived from stringifying it. -/
theorem claim_C7_error_wrapping (cid cid1 cid2 : Nat) (g g1 g2 : String)
    (e : Thrown) (str : String) :
    (isInstanceOfErrorClass cid e = true → newError cid g e = e) ∧
    newError cid g (newError cid g e) = newError cid g e ∧
    Thrown.errName (GameError.construct cid g e) = some (suffixGameErrorName g) ∧
    (jsEndsWith g GAME_ERROR_SUFFIX = false →
      suffixGameErrorName g = g ++ GAME_ERROR_SUFFIX) ∧
    suffixGameErrorName (suffixGameErrorName g) = suffixGameErrorName g ∧
    (cid1 ≠ cid2 →
      Thrown.errName (newError cid2 g2 (newError cid1 g1 (.plain str)))
        = some (suffixGameErrorName g2)) ∧
    newError cid g (.plain str)
      = .gameError cid g (suffixGameErrorName g) str (.plain str) := by
  refine ⟨?_, ?_, ?_, ?_, suffixGameErrorName_idem g, ?_, ?_⟩
  · intro h
    simp [newError, h]
  · by_cases h : isInstanceOfErrorClass cid e = true
    · simp [newError, h]
    · simp only [newError, h, Bool.false_eq_true, if_false]
      cases e <;>
        simp [GameError.construct, isInstanceOfErrorClass]
  · cases e <;> simp [GameError.construct, Thrown.errName]
  · intro h
    simp [suffixGameErrorName, h]
  · intro h
    have hne : (cid1 == cid2) = false := by simpa using h
    simp [newError, isInstanceOfErrorClass, GameError.construct, hne, Thrown.errName]
  · simp [newError, isInstanceOfErrorClass, GameError.construct, stringifyThrown]

/-- Witness for C7 at concrete inputs. -/
theorem claim_C7_error_wrapping_witness :
    isInstanceOfErrorClass 0 (Thrown.gameError 0 "Abc" "AbcGameError" "x" (.plain "x")) = true ∧
    newError 0 "Abc" (Thrown.gameError 0 "Abc" "AbcGameError" "x" (.plain "x"))
      = Thrown.gameError 0 "Abc" "AbcGameError" "x" (.plain "x") ∧
    (0 : Nat) ≠ 1 ∧
    Thrown.errName (newError 1 "Xyz" (newError 0 "Abc" (.plain "boom")))
      = some (suffixGameErrorName "Xyz") ∧
    jsEndsWith "Abc" GAME_ERROR_SUFFIX = false ∧
    suffixGameErrorName "Abc" = "Abc" ++ GAME_ERROR_SUFFIX :=
  ⟨by decide,
   (claim_C7_error_wrapping 0 0 1 "Abc" "A" "B"
      (Thrown.gameError 0 "Abc" "AbcGameError" "x" (.plain "x")) "s").1 (by decide),
   by decide,
   (claim_C7_error_wrapping 0 0 1 "A" "Abc" "Xyz" (.plain "p") "boom").2.2.2.2.2.1
     (by decide),
   by decide,
   (claim_C7_error_wrapping 0 0 1 "Abc" "A" "B" (.plain "p") "s").2.2.2.1 (by decide)⟩
/-- C3: calling `start()` while a run is active fails synchronously by
throwing the `GameAlreadyRunning` sentinel (modelled as the `Except.error`
result of the synchronous prefix of `start`), the instance state is
untouched, and the original active run still eventually settles: when its
game promise later settles with an outcome, the run's promise resolves
with that outcome and the `"end"` event fires. -/
theorem claim_C3_start_already_running (s : GameBase μ) (i : Nat) (r : Run μ)
    (g : GameEndEvent μ)
    (hhandle : s.runningHandle = some i)
    (hfind : s.findRun i = some r)
    (huniq : s.runs.Pairwise (fun a b => a.runId ≠ b.runId))
    (hphase : r.phase = .racingCancel) :
    s.start = .error () ∧
    s.step .start = s ∧
    ((s.settleGame i (.ok g)).findRun i).map (fun x => x.phase)
      = some (.settled (.ok g)) ∧
    (s.settleGame i (.ok g)).events = s.events ++ [GEvent.endEvent (EndPayload.ev g)] := by
  have hstart : s.start = .error () := by
    simp [GameBase.start, hhandle]
  obtain ⟨pre, post, hruns, hothers, hri⟩ := runs_decomp s i r hfind huniq
  have hsg : s.settleGame i (.ok g) = s.settleRet i (.ok g) := by
    simp [GameBase.settleGame, hfind, hphase]
  refine ⟨hstart, ?_, ?_, ?_⟩
  · simp [GameBase.step, hstart]
  · rw [hsg, settleRet_shape s pre post r i _ hruns hri hothers (by rw [hphase]; rfl)]
    rw [findRun_shape _ pre post { r with phase := .settled (.ok g), cancelFired := true }
      i ?h1 hri hothers]
    case h1 => rfl
    rfl
  · rw [hsg, settleRet_shape s pre post r i _ hruns hri hothers (by rw [hphase]; rfl)]

/-- Witness for C3: a concrete loaded instance with an active run. -/
def sampleActive : GameBase Nat :=
  (GameBase.init Nat "TestGame" 0).exec [.start, .settleLoad true (.plain "")]

theorem claim_C3_start_already_running_witness :
    sampleActive.runningHandle = some 0 ∧
    sampleActive.findRun 0
      = some { runId := 0, retPid := 1, phase := .racingCancel, cancelFired := false } ∧
    sampleActive.start = .error () ∧
    ((sampleActive.settleGame 0 (.ok (.success 42))).findRun 0).map (fun x => x.phase)
      = some (.settled (.ok (.success 42))) := by
  have h := claim_C3_start_already_running sampleActive 0
    { runId := 0, retPid := 1, phase := .racingCancel, cancelFired := false }
    (GameEndEvent.success 42) (by decide) (by decide) (by decide) (by decide)
  exact ⟨by decide, by decide, h.1, h.2.2.1⟩

/-- C10: `reset()` clears the running handle and the last result
synchronously, before the future it returns settles — immediately after the
call, `join()` and `lastGameResult` are absent while the stop-routine /
timeout race is still pending (the reset chain is armed and the promise
returned is the pending `#resetPromise`, with nothing logged as settled
yet). -/
theorem claim_C10_reset_clears_synchronously (s : GameBase μ) (i : Nat) (r : Run μ)
    (t : Option Nat) (har : ActiveRun s i r) :
    (s.reset t).2.runningHandle = none ∧
    (s.reset t).2.join = none ∧
    (s.reset t).2.lastGameResult = none ∧
    (s.reset t).2.resetPromise = some (s.reset t).1 ∧
    (s.reset t).2.resetChain
      = some { pid := (s.reset t).1, timeoutMs := t.getD s.defaultResetTimeoutMs } ∧
    (s.reset t).2.resetLog = s.resetLog := by
  obtain ⟨pre, post, hruns, hothers, hri⟩ := runs_decomp s i r har.hfind har.huniq
  rw [reset_active_shape s pre post r i t hruns hri hothers har.hphase har.hcf
    har.hhandle har.hrp]
  simp [GameBase.join, GameBase.lastGameResult]

/-- Witness for C10. -/
theorem claim_C10_reset_clears_synchronously_witness :
    (ActiveRun sampleActive 0
      { runId := 0, retPid := 1, phase := .racingCancel, cancelFired := false }) ∧
    (sampleActive.reset (some 100)).2.runningHandle = none ∧
    (sampleActive.reset (some 100)).2.join = none ∧
    (sampleActive.reset (some 100)).2.lastGameResult = none ∧
    (sampleActive.reset (some 100)).2.resetPromise = some (sampleActive.reset (some 100)).1 := by
  have har : ActiveRun sampleActive 0
      { runId := 0, retPid := 1, phase := .racingCancel, cancelFired := false } :=
    ⟨by decide, by decide, by decide, by decide, by decide, by decide, by decide, by decide⟩
  have h := claim_C10_reset_clears_synchronously sampleActive 0
    { runId := 0, retPid := 1, phase := .racingCancel, cancelFired := false }
    (some 100) har
  exact ⟨har, h.1, h.2.1, h.2.2.1, h.2.2.2.1⟩

/-- C5: concurrent `load()` calls while a load is pending return the
identical future and change nothing (the loader is not re-invoked and no
event is re-emitted); a call after successful completion returns a fresh
already-fulfilled promise without invoking the loader or emitting events;
the pending handle is cleared whenever the load settles, with either
outcome; and a call on a not-loaded instance with no pending handle — in
particular after a failed load — invokes the loader again, emitting
`"loading"`. -/
theorem claim_C5_load_dedup (s s2 : GameBase μ) (p : Nat) (e : Thrown) :
    (s.loaded = false → s.loadingPromise = some p → s.load = (p, false, s)) ∧
    (s.loaded = true → s.load = (s.nextId, true, { s with nextId := s.nextId + 1 })) ∧
    (s.loadingPromise = some p →
      (s.settleLoad true e).loadingPromise = none ∧
      (s.settleLoad false e).loadingPromise = none) ∧
    (s2.loaded = false → s2.loadingPromise = none →
      s2.load = (s2.nextId, false,
        { s2 with nextId := s2.nextId + 1,
                  events := s2.events ++ [GEvent.loading none],
                  loadImplCalls := s2.loadImplCalls + 1,
                  loadingPromise := some s2.nextId })) := by
  refine ⟨?_, ?_, ?_, ?_⟩
  · intro hl hp
    simp [GameBase.load, hl, hp]
  · intro hl
    simp [GameBase.load, hl]
  · intro hp
    constructor <;> simp [GameBase.settleLoad, hp]
  · intro hl hp
    simp [GameBase.load, hl, hp]

/-- Witness for C5: a pending load is deduplicated, a failed load can be
retried. -/
def samplePendingLoad : GameBase Nat :=
  (GameBase.init Nat "TestGame" 0).step .load

theorem claim_C5_load_dedup_witness :
    samplePendingLoad.loaded = false ∧
    samplePendingLoad.loadingPromise = some 0 ∧
    samplePendingLoad.load = (0, false, samplePendingLoad) ∧
    (samplePendingLoad.settleLoad false (.plain "boom")).loadingPromise = none := by
  have h := claim_C5_load_dedup samplePendingLoad samplePendingLoad 0 (Thrown.plain "boom")
  exact ⟨by decide, by decide, h.1 (by decide) (by decide), (h.2.2.1 (by decide)).2⟩
/-- Counterexample to C2 as stated: on a concrete loaded instance with an
active run, when `startImpl` rejects with the plain error `"boom"`, the
promise returned by `start()` rejects with that raw error — it does not
resolve with an Error-tagged outcome. -/
theorem claim_C2_counterexample :
    ((sampleActive.settleGame 0 (.error (.plain "boom"))).findRun 0).map (fun x => x.phase)
      = some (.settled (.thrown (.plain "boom"))) ∧
    ∀ g : GameEndEvent Nat,
      ((sampleActive.settleGame 0 (.error (.plain "boom"))).findRun 0).map (fun x => x.phase)
        ≠ some (.settled (.ok g)) := by
  have h1 : ((sampleActive.settleGame 0 (.error (.plain "boom"))).findRun 0).map
      (fun x => x.phase) = some (.settled (.thrown (.plain "boom"))) := by decide
  refine ⟨h1, fun g => ?_⟩
  rw [h1]
  simp

/-- C2 (amended): when the run routine rejects for a reason other than
cancellation, the promise returned by `start()` rejects with the raw
error; the Error-tagged outcome whose metadata is the wrapped error is
recorded as `lastGameResult` and emitted with the `"end"` event; only the
recorded outcome and the event carry the wrapping — the rejection itself
is the original error. -/
theorem claim_C2_run_failure_semantics (s : GameBase μ) (i : Nat) (r : Run μ) (e : Thrown)
    (hfind : s.findRun i = some r)
    (huniq : s.runs.Pairwise (fun a b => a.runId ≠ b.runId))
    (hphase : r.phase = .racingCancel) :
    ((s.settleGame i (.error e)).findRun i).map (fun x => x.phase)
      = some (.settled (.thrown e)) ∧
    (s.settleGame i (.error e)).lastGameResult
      = some (.error (newError s.classId s.name e)) ∧
    (s.settleGame i (.error e)).events
      = s.events ++ [GEvent.endEvent (.ev (.error (newError s.classId s.name e)))] := by
  obtain ⟨pre, post, hruns, hothers, hri⟩ := runs_decomp s i r hfind huniq
  have hsg : s.settleGame i (.error e) = s.settleRet i (.thrown e) := by
    simp [GameBase.settleGame, hfind, hphase]
  rw [hsg, settleRet_shape s pre post r i _ hruns hri hothers (by rw [hphase]; rfl)]
  refine ⟨?_, by simp [GameBase.lastGameResult], by simp⟩
  rw [findRun_shape _ pre post { r with phase := .settled (.thrown e), cancelFired := true }
    i ?h1 hri hothers]
  case h1 => rfl
  rfl

/-- Witness for the amended C2. -/
theorem claim_C2_run_failure_semantics_witness :
    sampleActive.findRun 0
      = some { runId := 0, retPid := 1, phase := .racingCancel, cancelFired := false } ∧
    (sampleActive.settleGame 0 (.error (.plain "oops"))).lastGameResult
      = some (.error (newError 0 "TestGame" (.plain "oops"))) := by
  have h := claim_C2_run_failure_semantics sampleActive 0
    { runId := 0, retPid := 1, phase := .racingCancel, cancelFired := false }
    (Thrown.plain "oops") (by decide) (by decide) (by decide)
  exact ⟨by decide, h.2.1⟩

/-- C6: a rejection of the implementation's stop routine never propagates
as a rejection of the future returned by `reset()`: the reset promise is
logged as fulfilled (the `then(() => {}, () => {})` normalisation swallows
the failure), and the instance is left in a clean, not-running state. -/
theorem claim_C6_reset_swallows_stop_failure (s : GameBase μ) (i : Nat) (r : Run μ)
    (t : Option Nat) (e : Thrown) (har : ActiveRun s i r) :
    (((s.reset t).2).step (.settleReset false e)).resetLog
      = s.resetLog ++ [((s.reset t).1, ResetOutcome.ok)] ∧
    (((s.reset t).2).step (.settleReset false e)).resetPromise = none ∧
    (((s.reset t).2).step (.settleReset false e)).resetChain = none ∧
    (((s.reset t).2).step (.settleReset false e)).runningHandle = none ∧
    (((s.reset t).2).step (.settleReset false e)).join = none ∧
    (((s.reset t).2).step (.settleReset false e)).lastGameResult = none := by
  obtain ⟨pre, post, hruns, hothers, hri⟩ := runs_decomp s i r har.hfind har.huniq
  have hset : ∀ x ∈ pre ++ post, x.phase.isSettled = true := by
    intro x hx
    have hmem : x ∈ s.runs := by
      rw [hruns]
      rcases List.mem_append.mp hx with h | h
      · exact List.mem_append.mpr (Or.inl h)
      · exact List.mem_append.mpr (Or.inr (List.mem_cons_of_mem _ h))
    rcases har.hquiet x hmem with h | h
    · exact absurd h (hothers x hx)
    · exact h
  have hstep : ∀ x : GameBase μ, x.step (.settleReset false e) = x.settleResetChain (.err e) :=
    fun _ => rfl
  rw [reset_active_shape s pre post r i t hruns hri hothers har.hphase har.hcf
    har.hhandle har.hrp, hstep]
  rw [settleResetChain_shape_waiting _ pre post
    ({ r with cancelFired := true, phase := RunPhase.racingReset }) i
    ({ pid := s.nextId, timeoutMs := t.getD s.defaultResetTimeoutMs }) (.err e)
    ?h1 hri hothers hset ?h2 ?h3]
  case h1 => rfl
  case h2 => rfl
  case h3 => rfl
  simp [GameBase.join, GameBase.lastGameResult]

/-- Witness for C6. -/
theorem claim_C6_reset_swallows_stop_failure_witness :
    (ActiveRun sampleActive 0
      { runId := 0, retPid := 1, phase := .racingCancel, cancelFired := false }) ∧
    (((sampleActive.reset (some 100)).2).step
        (.settleReset false (.plain "stop failed"))).resetLog
      = [] ++ [((sampleActive.reset (some 100)).1, ResetOutcome.ok)] ∧
    (((sampleActive.reset (some 100)).2).step
        (.settleReset false (.plain "stop failed"))).runningHandle = none := by
  have har : ActiveRun sampleActive 0
      { runId := 0, retPid := 1, phase := .racingCancel, cancelFired := false } :=
    ⟨by decide, by decide, by decide, by decide, by decide, by decide, by decide, by decide⟩
  have h := claim_C6_reset_swallows_stop_failure sampleActive 0
    { runId := 0, retPid := 1, phase := .racingCancel, cancelFired := false }
    (some 100) (Thrown.plain "stop failed") har
  exact ⟨har, h.1, h.2.2.2.1⟩

/-- C4: for a `reset(timeoutMs)` call made while a run is active, even when
the stop routine never settles, the timer armed with `timeoutMs` is
pending, and once it fires the future returned by `reset()` settles (it is
logged as fulfilled, the handle is cleared) and no run is active — `join()`
is absent. -/
theorem claim_C4_reset_bounded_by_timeout (s : GameBase μ) (i : Nat) (r : Run μ) (t : Nat)
    (har : ActiveRun s i r) :
    (s.reset (some t)).2.resetChain = some { pid := (s.reset (some t)).1, timeoutMs := t } ∧
    (s.reset (some t)).2.resetPromise = some (s.reset (some t)).1 ∧
    (((s.reset (some t)).2).step .fireResetTimer).resetLog
      = s.resetLog ++ [((s.reset (some t)).1, ResetOutcome.ok)] ∧
    (((s.reset (some t)).2).step .fireResetTimer).resetPromise = none ∧
    (((s.reset (some t)).2).step .fireResetTimer).resetChain = none ∧
    (((s.reset (some t)).2).step .fireResetTimer).runningHandle = none ∧
    (((s.reset (some t)).2).step .fireResetTimer).join = none := by
  obtain ⟨pre, post, hruns, hothers, hri⟩ := runs_decomp s i r har.hfind har.huniq
  have hset : ∀ x ∈ pre ++ post, x.phase.isSettled = true := by
    intro x hx
    have hmem : x ∈ s.runs := by
      rw [hruns]
      rcases List.mem_append.mp hx with h | h
      · exact List.mem_append.mpr (Or.inl h)
      · exact List.mem_append.mpr (Or.inr (List.mem_cons_of_mem _ h))
    rcases har.hquiet x hmem with h | h
    · exact absurd h (hothers x hx)
    · exact h
  have hstep : ∀ x : GameBase μ, x.step .fireResetTimer = x.settleResetChain .ok :=
    fun _ => rfl
  rw [reset_active_shape s pre post r i (some t) hruns hri hothers har.hphase har.hcf
    har.hhandle har.hrp, hstep]
  refine ⟨rfl, rfl, ?_⟩
  rw [settleResetChain_shape_waiting _ pre post
    ({ r with cancelFired := true, phase := RunPhase.racingReset }) i
    ({ pid := s.nextId, timeoutMs := (some t).getD s.defaultResetTimeoutMs }) .ok
    ?h1 hri hothers hset ?h2 ?h3]
  case h1 => rfl
  case h2 => rfl
  case h3 => rfl
  simp [GameBase.join, GameBase.lastGameResult]

/-- Witness for C4. -/
theorem claim_C4_reset_bounded_by_timeout_witness :
    (ActiveRun sampleActive 0
      { runId := 0, retPid := 1, phase := .racingCancel, cancelFired := false }) ∧
    (sampleActive.reset (some 100)).2.resetChain
      = some { pid := (sampleActive.reset (some 100)).1, timeoutMs := 100 } ∧
    (((sampleActive.reset (some 100)).2).step .fireResetTimer).runningHandle = none ∧
    (((sampleActive.reset (some 100)).2).step .fireResetTimer).join = none := by
  have har : ActiveRun sampleActive 0
      { runId := 0, retPid := 1, phase := .racingCancel, cancelFired := false } :=
    ⟨by decide, by decide, by decide, by decide, by decide, by decide, by decide, by decide⟩
  have h := claim_C4_reset_bounded_by_timeout sampleActive 0
    { runId := 0, retPid := 1, phase := .racingCancel, cancelFired := false } 100 har
  exact ⟨har, h.1, h.2.2.2.2.2.1, h.2.2.2.2.2.2⟩
/-- When the run body races the reset promise, a game-promise settlement
of either kind makes the body reject with `GameCanceled`. -/
theorem settleGame_racingReset (s : GameBase μ) (i : Nat) (r : Run μ)
    (g : Except Thrown (GameEndEvent μ))
    (hfind : s.findRun i = some r) (hphase : r.phase = .racingReset) :
    s.settleGame i g = s.settleRet i .canceled := by
  simp [GameBase.settleGame, hfind, hphase]

/-- A game-promise settlement after the run's promise has settled is a
no-op (a lost race). -/
theorem settleGame_settled (s : GameBase μ) (i : Nat) (r : Run μ)
    (g : Except Thrown (GameEndEvent μ)) (res : RetResult μ)
    (hfind : s.findRun i = some r) (hphase : r.phase = .settled res) :
    s.settleGame i g = s := by
  simp [GameBase.settleGame, hfind, hphase]

/-! ## Cancellation episodes (claim C1) -/

/-- How the reset race eventually settles: the stop routine resolves, the
stop routine rejects, or the stop routine never settles and the timer
fires. -/
inductive ResetSettleWay where
  | implOk
  | implErr (e : Thrown)
  | timer
deriving DecidableEq, Repr

/-- The stimulus corresponding to a `ResetSettleWay`. -/
def resetSettleCmd : ResetSettleWay → Cmd μ
  | .implOk => .settleReset true (.plain "")
  | .implErr e => .settleReset false e
  | .timer => .fireResetTimer

/-- The race result the reset chain settles with for a `ResetSettleWay`. -/
def resetSettleRace : ResetSettleWay → RaceResult
  | .implOk => .ok
  | .implErr e => .err e
  | .timer => .ok

theorem step_resetSettleCmd (s : GameBase μ) (w : ResetSettleWay) :
    s.step (resetSettleCmd w) = s.settleResetChain (resetSettleRace w) := by
  cases w <;> rfl

/-- The observable schedules of one cancellation episode after `reset()`
was called on an active run: either the game promise settles first
(with any outcome) and the reset race settles afterwards, or the reset
race settles first and the game promise may or may not settle later. -/
inductive CancelEpisode (μ : Type) where
  | gameFirst (g : Except Thrown (GameEndEvent μ)) (w : ResetSettleWay)
  | resetFirst (w : ResetSettleWay) (g : Option (Except Thrown (GameEndEvent μ)))

/-- The stimuli of a cancellation episode for run `i`. -/
def episodeCmds (i : Nat) : CancelEpisode μ → List (Cmd μ)
  | .gameFirst g w => [.settleGame i g, resetSettleCmd w]
  | .resetFirst w none => [resetSettleCmd w]
  | .resetFirst w (some g) => [resetSettleCmd w, .settleGame i g]

/-- The state reached by calling `reset(t)` and then delivering the
episode's stimuli. -/
def episodeExec (s : GameBase μ) (i : Nat) (t : Option Nat) (ep : CancelEpisode μ) :
    GameBase μ :=
  ((s.reset t).2).exec (episodeCmds i ep)

/-- C1: for an instance with an active run, concurrent `reset()` calls
return the identical pending future; under every episode schedule the
active run's future rejects with the `GameCanceled` sentinel, exactly one
`"end"` event is emitted and it carries the sentinel (the event log is
extended by that single event); the reset future fulfils; and after the
reset future settles, `lastGameResult` is absent and `join()` is absent. -/
theorem claim_C1_reset_cancels_active_run (s : GameBase μ) (i : Nat) (r : Run μ)
    (t : Option Nat) (ep : CancelEpisode μ) (har : ActiveRun s i r) :
    ((s.reset t).2).reset t = ((s.reset t).1, (s.reset t).2) ∧
    ((episodeExec s i t ep).findRun i).map (fun x => x.phase)
      = some (.settled .canceled) ∧
    (episodeExec s i t ep).events = s.events ++ [GEvent.endEvent EndPayload.canceled] ∧
    (episodeExec s i t ep).resetLog = s.resetLog ++ [((s.reset t).1, ResetOutcome.ok)] ∧
    (episodeExec s i t ep).lastGameResult = none ∧
    (episodeExec s i t ep).join = none := by
  obtain ⟨pre, post, hruns, hothers, hri⟩ := runs_decomp s i r har.hfind har.huniq
  have hset : ∀ x ∈ pre ++ post, x.phase.isSettled = true := by
    intro x hx
    have hmem : x ∈ s.runs := by
      rw [hruns]
      rcases List.mem_append.mp hx with h | h
      · exact List.mem_append.mpr (Or.inl h)
      · exact List.mem_append.mpr (Or.inr (List.mem_cons_of_mem _ h))
    rcases har.hquiet x hmem with h | h
    · exact absurd h (hothers x hx)
    · exact h
  have hres := reset_active_shape s pre post r i t hruns hri hothers har.hphase har.hcf
    har.hhandle har.hrp
  have hdedup : ((s.reset t).2).reset t = ((s.reset t).1, (s.reset t).2) := by
    rw [hres]
    rfl
  refine ⟨hdedup, ?_⟩
  unfold episodeExec
  rw [hres]
  rcases ep with ⟨g, w⟩ | ⟨w, g⟩
  · -- the game promise settles first: the run body, racing the reset
    -- promise, rejects with the sentinel; the reset race then settles with
    -- no waiters left
    simp only [episodeCmds, GameBase.exec]
    have hstep1 : ∀ x : GameBase μ, x.step (.settleGame i g) = x.settleGame i g :=
      fun _ => rfl
    rw [hstep1]
    rw [settleGame_racingReset _ i ({ r with cancelFired := true, phase := RunPhase.racingReset })
      g ?hf1 ?hp1]
    case hf1 => exact findRun_shape _ pre post _ i rfl hri hothers
    case hp1 => rfl
    rw [settleRet_shape _ pre post ({ r with cancelFired := true, phase := RunPhase.racingReset })
      i RetResult.canceled ?hruns1 hri hothers ?hns1]
    case hruns1 => rfl
    case hns1 => rfl
    rw [step_resetSettleCmd]
    rw [settleResetChain_shape_quiet _
      ({ pid := s.nextId, timeoutMs := t.getD s.defaultResetTimeoutMs })
      (resetSettleRace w) ?hset2 ?hchain2]
    case hset2 =>
      intro x hx
      have hx' : x ∈ pre ++
          ({ r with phase := RunPhase.settled RetResult.canceled, cancelFired := true } : Run μ)
            :: post := hx
      rcases List.mem_append.mp hx' with h | h
      · exact hset x (List.mem_append.mpr (Or.inl h))
      · rcases List.mem_cons.mp h with h | h
        · rw [h]
          rfl
        · exact hset x (List.mem_append.mpr (Or.inr h))
    case hchain2 => rfl
    rw [findRun_shape _ pre post
      ({ r with phase := RunPhase.settled RetResult.canceled, cancelFired := true })
      i ?hruns3 hri hothers]
    case hruns3 => rfl
    simp [GameBase.lastGameResult, GameBase.join]
  · -- the reset race settles first: the waiting run body rejects with the
    -- sentinel; a late game settlement is a no-op on the settled run
    rcases g with _ | g
    · simp only [episodeCmds, GameBase.exec]
      rw [step_resetSettleCmd]
      rw [settleResetChain_shape_waiting _ pre post
        ({ r with cancelFired := true, phase := RunPhase.racingReset }) i
        ({ pid := s.nextId, timeoutMs := t.getD s.defaultResetTimeoutMs })
        (resetSettleRace w) ?hruns1 hri hothers hset ?hph1 ?hchain1]
      case hruns1 => rfl
      case hph1 => rfl
      case hchain1 => rfl
      rw [findRun_shape _ pre post
        ({ r with cancelFired := true, phase := RunPhase.settled RetResult.canceled })
        i ?hruns2 hri hothers]
      case hruns2 => rfl
      simp [GameBase.lastGameResult, GameBase.join]
    · simp only [episodeCmds, GameBase.exec]
      rw [step_resetSettleCmd]
      rw [settleResetChain_shape_waiting _ pre post
        ({ r with cancelFired := true, phase := RunPhase.racingReset }) i
        ({ pid := s.nextId, timeoutMs := t.getD s.defaultResetTimeoutMs })
        (resetSettleRace w) ?hruns1 hri hothers hset ?hph1 ?hchain1]
      case hruns1 => rfl
      case hph1 => rfl
      case hchain1 => rfl
      have hstep1 : ∀ x : GameBase μ, x.step (.settleGame i g) = x.settleGame i g :=
        fun _ => rfl
      rw [hstep1]
      rw [settleGame_settled _ i
        ({ r with cancelFired := true, phase := RunPhase.settled RetResult.canceled })
        g RetResult.canceled ?hf2 ?hp2]
      case hf2 => exact findRun_shape _ pre post _ i rfl hri hothers
      case hp2 => rfl
      rw [findRun_shape _ pre post
        ({ r with cancelFired := true, phase := RunPhase.settled RetResult.canceled })
        i ?hruns2 hri hothers]
      case hruns2 => rfl
      simp [GameBase.lastGameResult, GameBase.join]

/-- Witness for C1 at a concrete instance and episode. -/
theorem claim_C1_reset_cancels_active_run_witness :
    (ActiveRun sampleActive 0
      { runId := 0, retPid := 1, phase := .racingCancel, cancelFired := false }) ∧
    ((episodeExec sampleActive 0 (some 100)
        (.gameFirst (.ok (.success 7)) .timer)).findRun 0).map (fun x => x.phase)
      = some (.settled .canceled) ∧
    (episodeExec sampleActive 0 (some 100) (.gameFirst (.ok (.success 7)) .timer)).events
      = sampleActive.events ++ [GEvent.endEvent EndPayload.canceled] ∧
    (episodeExec sampleActive 0 (some 100)
        (.gameFirst (.ok (.success 7)) .timer)).lastGameResult = none ∧
    (episodeExec sampleActive 0 (some 100) (.gameFirst (.ok (.success 7)) .timer)).join
      = none := by
  have har : ActiveRun sampleActive 0
      { runId := 0, retPid := 1, phase := .racingCancel, cancelFired := false } :=
    ⟨by decide, by decide, by decide, by decide, by decide, by decide, by decide, by decide⟩
  have h := claim_C1_reset_cancels_active_run sampleActive 0
    { runId := 0, retPid := 1, phase := .racingCancel, cancelFired := false }
    (some 100) (.gameFirst (.ok (.success 7)) .timer) har
  exact ⟨har, h.2.1, h.2.2.1, h.2.2.2.2.1, h.2.2.2.2.2⟩

/-- C9: cancellation is never recorded as a result: settling a run's
promise as rejected with the `GameCanceled` sentinel leaves
`lastGameResult` untouched (only Success/Failure/Error-tagged outcomes are
ever stored in `#lastEnd`), and in the cancellation scenario the `"end"`
event carries the sentinel while `lastGameResult` is absent afterwards. -/
theorem claim_C9_canceled_never_recorded (s0 s : GameBase μ) (j i : Nat) (r : Run μ)
    (t : Option Nat) (har : ActiveRun s i r) :
    (s0.settleRet j RetResult.canceled).lastGameResult = s0.lastGameResult ∧
    (((s.reset t).2).step .fireResetTimer).events
      = s.events ++ [GEvent.endEvent EndPayload.canceled] ∧
    (((s.reset t).2).step .fireResetTimer).lastGameResult = none := by
  constructor
  · rcases hf : s0.findRun j with _ | r0
    · simp [GameBase.settleRet, hf, GameBase.lastGameResult]
    · rcases hp : r0.phase with _ | _ | _ | res0 <;>
        simp only [GameBase.settleRet, hf, hp, GameBase.lastGameResult] <;>
        first
          | rfl
          | (split <;> rfl)
  · obtain ⟨pre, post, hruns, hothers, hri⟩ := runs_decomp s i r har.hfind har.huniq
    have hset : ∀ x ∈ pre ++ post, x.phase.isSettled = true := by
      intro x hx
      have hmem : x ∈ s.runs := by
        rw [hruns]
        rcases List.mem_append.mp hx with h | h
        · exact List.mem_append.mpr (Or.inl h)
        · exact List.mem_append.mpr (Or.inr (List.mem_cons_of_mem _ h))
      rcases har.hquiet x hmem with h | h
      · exact absurd h (hothers x hx)
      · exact h
    have hstep : ∀ x : GameBase μ, x.step .fireResetTimer = x.settleResetChain .ok :=
      fun _ => rfl
    rw [reset_active_shape s pre post r i t hruns hri hothers har.hphase har.hcf
      har.hhandle har.hrp, hstep]
    rw [settleResetChain_shape_waiting _ pre post
      ({ r with cancelFired := true, phase := RunPhase.racingReset }) i
      ({ pid := s.nextId, timeoutMs := t.getD s.defaultResetTimeoutMs }) .ok
      ?h1 hri hothers hset ?h2 ?h3]
    case h1 => rfl
    case h2 => rfl
    case h3 => rfl
    exact ⟨rfl, rfl⟩

/-- Witness for C9. -/
theorem claim_C9_canceled_never_recorded_witness :
    (ActiveRun sampleActive 0
      { runId := 0, retPid := 1, phase := .racingCancel, cancelFired := false }) ∧
    (sampleActive.settleRet 0 RetResult.canceled).lastGameResult
      = sampleActive.lastGameResult ∧
    (((sampleActive.reset (some 100)).2).step .fireResetTimer).lastGameResult = none := by
  have har : ActiveRun sampleActive 0
      { runId := 0, retPid := 1, phase := .racingCancel, cancelFired := false } :=
    ⟨by decide, by decide, by decide, by decide, by decide, by decide, by decide, by decide⟩
  have h := claim_C9_canceled_never_recorded sampleActive sampleActive 0 0
    { runId := 0, retPid := 1, phase := .racingCancel, cancelFired := false }
    (some 100) har
  exact ⟨har, h.1, h.2.2⟩
/-! ## Event-order invariant (claim C8)

The causal-order claim is proved as a prefix-count invariant over all
stimulus sequences: at every prefix of the event log, at least as many
`"loading"` events with the indeterminate payload have been emitted as
`"loaded"` events, and at least as many `"started"` events as `"end"`
events. -/

/-- The initial `"loading"` event of a load (payload `undefined`). -/
def isLoadingUndef : GEvent μ → Bool
  | .loading none => true
  | .loading (some _) => false
  | .loaded => false
  | .started => false
  | .endEvent _ => false

/-- A `"loaded"` event. -/
def isLoadedEv : GEvent μ → Bool
  | .loading _ => false
  | .loaded => true
  | .started => false
  | .endEvent _ => false

/-- A `"started"` event. -/
def isStartedEv : GEvent μ → Bool
  | .loading _ => false
  | .loaded => false
  | .started => true
  | .endEvent _ => false

/-- An `"end"` event. -/
def isEndEv : GEvent μ → Bool
  | .loading _ => false
  | .loaded => false
  | .started => false
  | .endEvent _ => true

/-- The number of runs whose promise has not settled. -/
def pendingRuns (s : GameBase μ) : Nat :=
  s.runs.countP (fun r => !r.phase.isSettled)

/-- One when a load is in flight. -/
def loadBit (s : GameBase μ) : Nat :=
  if s.loadingPromise.isSome then 1 else 0

/-- Run-related part of the machine invariant: run identities are distinct
and below the identifier counter; counting `"end"` events plus pending runs
never exceeds `"started"` events, at the end and at every prefix of the
log. -/
structure RunInv (s : GameBase μ) : Prop where
  uniq : s.runs.Pairwise (fun a b => a.runId ≠ b.runId)
  fresh : ∀ x ∈ s.runs, x.runId < s.nextId
  run_le : s.events.countP isEndEv + pendingRuns s ≤ s.events.countP isStartedEv
  qrun : ∀ n, (s.events.take n).countP isEndEv ≤ (s.events.take n).countP isStartedEv

/-- Load-related part of the machine invariant: counting `"loaded"` events
plus the in-flight load never exceeds the indeterminate `"loading"` events,
at the end and at every prefix of the log. -/
structure LoadInv (s : GameBase μ) : Prop where
  load_le : s.events.countP isLoadedEv + loadBit s ≤ s.events.countP isLoadingUndef
  qload : ∀ n, (s.events.take n).countP isLoadedEv ≤ (s.events.take n).countP isLoadingUndef

theorem q_append {α : Type _} (f g : α → Bool) (l : List α) (e : α)
    (h : ∀ n, (l.take n).countP f ≤ (l.take n).countP g)
    (he : l.countP f + (if f e then 1 else 0) ≤ l.countP g + (if g e then 1 else 0)) :
    ∀ n, ((l ++ [e]).take n).countP f ≤ ((l ++ [e]).take n).countP g := by
  intro n
  by_cases hn : n ≤ l.length
  · rw [List.take_append_of_le_length hn]
    exact h n
  · rw [List.take_of_length_le (by simp; omega)]
    simp only [List.countP_append, List.countP_cons, List.countP_nil]
    omega

theorem q_append_list {α : Type _} (f g : α → Bool) (tail : List α) :
    ∀ l : List α,
      (∀ n, (l.take n).countP f ≤ (l.take n).countP g) →
      (∀ e ∈ tail, f e = false ∧ g e = false) →
      ∀ n, ((l ++ tail).take n).countP f ≤ ((l ++ tail).take n).countP g := by
  induction tail with
  | nil =>
    intro l h _ n
    simpa using h n
  | cons e tail ih =>
    intro l h ht n
    obtain ⟨hfe, hge⟩ := ht e (by simp)
    have hq : ∀ m, ((l ++ [e]).take m).countP f ≤ ((l ++ [e]).take m).countP g := by
      apply q_append f g l e h
      have hl := h l.length
      rw [List.take_length] at hl
      simp [hfe, hge]
      omega
    have := ih (l ++ [e]) hq (fun x hx => ht x (by simp [hx])) n
    simpa using this

theorem countP_middle (p : Run μ → Bool) (pre post : List (Run μ)) (x : Run μ) :
    (pre ++ x :: post).countP p
      = pre.countP p + post.countP p + (if p x then 1 else 0) := by
  simp [List.countP_append, List.countP_cons]
  omega

theorem pairwise_replace_middle (pre post : List (Run μ)) (a b : Run μ)
    (hid : b.runId = a.runId)
    (h : (pre ++ a :: post).Pairwise (fun x y => x.runId ≠ y.runId)) :
    (pre ++ b :: post).Pairwise (fun x y => x.runId ≠ y.runId) := by
  rw [List.pairwise_append] at h ⊢
  obtain ⟨h1, h2, h3⟩ := h
  rw [List.pairwise_cons] at h2 ⊢
  refine ⟨h1, ⟨fun y hy => ?_, h2.2⟩, fun x hx y hy => ?_⟩
  · rw [hid]
    exact h2.1 y hy
  · rcases List.mem_cons.mp hy with hy | hy
    · rw [hy, hid]
      exact h3 x hx a (by simp)
    · exact h3 x hx y (by simp [hy])
/-- Transfer of `RunInv` when one pending run settles and one `"end"` event
is appended. -/
theorem runInv_settleTransfer (s s' : GameBase μ) (pre post : List (Run μ))
    (r0 r1 : Run μ) (pay : EndPayload μ)
    (h : RunInv s)
    (hruns : s.runs = pre ++ r0 :: post)
    (hruns' : s'.runs = pre ++ r1 :: post)
    (hid : r1.runId = r0.runId)
    (hnext : s'.nextId = s.nextId)
    (hpend0 : r0.phase.isSettled = false)
    (hpend1 : r1.phase.isSettled = true)
    (hev : s'.events = s.events ++ [GEvent.endEvent pay]) :
    RunInv s' := by
  have hpends : pendingRuns s
      = pre.countP (fun r => !r.phase.isSettled)
        + post.countP (fun r => !r.phase.isSettled) + 1 := by
    rw [pendingRuns, hruns, countP_middle]
    simp [hpend0]
  have hpends' : pendingRuns s'
      = pre.countP (fun r => !r.phase.isSettled)
        + post.countP (fun r => !r.phase.isSettled) := by
    rw [pendingRuns, hruns', countP_middle]
    simp [hpend1]
  refine ⟨?_, ?_, ?_, ?_⟩
  · rw [hruns']
    exact pairwise_replace_middle pre post r0 r1 hid (hruns ▸ h.uniq)
  · intro x hx
    rw [hruns'] at hx
    rw [hnext]
    rcases List.mem_append.mp hx with hx | hx
    · exact h.fresh x (by rw [hruns]; exact List.mem_append.mpr (Or.inl hx))
    · rcases List.mem_cons.mp hx with hx | hx
      · rw [hx, hid]
        exact h.fresh r0 (by rw [hruns]; exact List.mem_append.mpr (Or.inr (by simp)))
      · exact h.fresh x
          (by rw [hruns]; exact List.mem_append.mpr (Or.inr (List.mem_cons_of_mem _ hx)))
  · have := h.run_le
    rw [hpends] at this
    rw [hev, hpends']
    simp only [List.countP_append, List.countP_cons, List.countP_nil]
    simp [isEndEv, isStartedEv]
    omega
  · rw [hev]
    apply q_append _ _ _ _ h.qrun
    have := h.run_le
    rw [hpends] at this
    simp [isEndEv, isStartedEv]
    omega

/-- Transfer of `RunInv` when one pending run moves to another pending
phase and the log is unchanged. -/
theorem runInv_pendTransfer (s s' : GameBase μ) (pre post : List (Run μ))
    (r0 r1 : Run μ)
    (h : RunInv s)
    (hruns : s.runs = pre ++ r0 :: post)
    (hruns' : s'.runs = pre ++ r1 :: post)
    (hid : r1.runId = r0.runId)
    (hnext : s'.nextId = s.nextId)
    (hpend : r1.phase.isSettled = r0.phase.isSettled)
    (hev : s'.events = s.events) :
    RunInv s' := by
  have hpends : pendingRuns s' = pendingRuns s := by
    rw [pendingRuns, pendingRuns, hruns, hruns', countP_middle, countP_middle]
    simp [hpend]
  refine ⟨?_, ?_, ?_, ?_⟩
  · rw [hruns']
    exact pairwise_replace_middle pre post r0 r1 hid (hruns ▸ h.uniq)
  · intro x hx
    rw [hruns'] at hx
    rw [hnext]
    rcases List.mem_append.mp hx with hx | hx
    · exact h.fresh x (by rw [hruns]; exact List.mem_append.mpr (Or.inl hx))
    · rcases List.mem_cons.mp hx with hx | hx
      · rw [hx, hid]
        exact h.fresh r0 (by rw [hruns]; exact List.mem_append.mpr (Or.inr (by simp)))
      · exact h.fresh x
          (by rw [hruns]; exact List.mem_append.mpr (Or.inr (List.mem_cons_of_mem _ hx)))
  · rw [hev, hpends]
    exact h.run_le
  · rw [hev]
    exact h.qrun

/-- Transfer of `RunInv` when the run list is unchanged, the counter does
not shrink, and only events that are neither `"end"` nor `"started"` are
appended. -/
theorem runInv_frameTransfer (s s' : GameBase μ) (tail : List (GEvent μ))
    (h : RunInv s)
    (hruns' : s'.runs = s.runs)
    (hnext : s.nextId ≤ s'.nextId)
    (hev : s'.events = s.events ++ tail)
    (ht : ∀ e ∈ tail, isEndEv e = false ∧ isStartedEv e = false) :
    RunInv s' := by
  have hpends : pendingRuns s' = pendingRuns s := by
    rw [pendingRuns, pendingRuns, hruns']
  have hcount : ∀ p : GEvent μ → Bool, (∀ e ∈ tail, p e = false) →
      tail.countP p = 0 := by
    intro p hp
    rw [List.countP_eq_zero]
    intro a ha
    simp [hp a ha]
  refine ⟨?_, ?_, ?_, ?_⟩
  · rw [hruns']
    exact h.uniq
  · intro x hx
    rw [hruns'] at hx
    exact lt_of_lt_of_le (h.fresh x hx) hnext
  · rw [hev, hpends]
    simp only [List.countP_append,
      hcount isEndEv (fun e he => (ht e he).1),
      hcount isStartedEv (fun e he => (ht e he).2)]
    have := h.run_le
    omega
  · rw [hev]
    exact q_append_list _ _ tail s.events h.qrun ht

/-- Transfer of `RunInv` when a fresh pending run is appended together with
its `"started"` event. -/
theorem runInv_startTransfer (s s' : GameBase μ) (nr : Run μ)
    (h : RunInv s)
    (hruns' : s'.runs = s.runs ++ [nr])
    (hpend : nr.phase.isSettled = false)
    (hdistinct : ∀ x ∈ s.runs, x.runId < nr.runId)
    (hhigh : nr.runId < s'.nextId)
    (hnext : s.nextId ≤ s'.nextId)
    (hev : s'.events = s.events ++ [GEvent.started]) :
    RunInv s' := by
  have hpends : pendingRuns s' = pendingRuns s + 1 := by
    rw [pendingRuns, pendingRuns, hruns']
    simp [List.countP_append, List.countP_cons, hpend]
  refine ⟨?_, ?_, ?_, ?_⟩
  · rw [hruns', List.pairwise_append]
    refine ⟨h.uniq, by simp, ?_⟩
    intro x hx y hy
    rcases List.mem_singleton.mp hy with rfl
    have := hdistinct x hx
    omega
  · intro x hx
    rw [hruns'] at hx
    rcases List.mem_append.mp hx with hx | hx
    · exact lt_of_lt_of_le (h.fresh x hx) hnext
    · rcases List.mem_singleton.mp hx with rfl
      exact hhigh
  · rw [hev, hpends]
    simp only [List.countP_append, List.countP_cons, List.countP_nil]
    have := h.run_le
    simp [isEndEv, isStartedEv]
    omega
  · rw [hev]
    apply q_append _ _ _ _ h.qrun
    have := h.run_le
    simp [isEndEv, isStartedEv]
    omega

/-- Transfer of `LoadInv` when the pending-load handle does not appear and
only events that are neither `"loaded"` nor indeterminate `"loading"` are
appended. -/
theorem loadInv_frameTransfer (s s' : GameBase μ) (tail : List (GEvent μ))
    (h : LoadInv s)
    (hbit : loadBit s' ≤ loadBit s)
    (hev : s'.events = s.events ++ tail)
    (ht : ∀ e ∈ tail, isLoadedEv e = false ∧ isLoadingUndef e = false) :
    LoadInv s' := by
  have hcount : ∀ p : GEvent μ → Bool, (∀ e ∈ tail, p e = false) →
      tail.countP p = 0 := by
    intro p hp
    rw [List.countP_eq_zero]
    intro a ha
    simp [hp a ha]
  refine ⟨?_, ?_⟩
  · rw [hev]
    simp only [List.countP_append,
      hcount isLoadedEv (fun e he => (ht e he).1),
      hcount isLoadingUndef (fun e he => (ht e he).2)]
    have := h.load_le
    omega
  · rw [hev]
    exact q_append_list _ _ tail s.events h.qload ht

/-- Transfer of `LoadInv` when a fresh load starts: the handle appears and
the indeterminate `"loading"` event is emitted. -/
theorem loadInv_freshTransfer (s s' : GameBase μ)
    (h : LoadInv s)
    (hlp : s.loadingPromise = none)
    (hbit : loadBit s' ≤ 1)
    (hev : s'.events = s.events ++ [GEvent.loading none]) :
    LoadInv s' := by
  have hbs : loadBit s = 0 := by simp [loadBit, hlp]
  refine ⟨?_, ?_⟩
  · rw [hev]
    simp only [List.countP_append, List.countP_cons, List.countP_nil]
    have := h.load_le
    rw [hbs] at this
    simp [isLoadedEv, isLoadingUndef]
    omega
  · rw [hev]
    apply q_append _ _ _ _ h.qload
    have := h.load_le
    rw [hbs] at this
    simp [isLoadedEv, isLoadingUndef]
    omega

/-- Transfer of `LoadInv` when a pending load completes: the handle is
cleared, the `"loaded"` event is emitted, and only load-neutral events
follow it. -/
theorem loadInv_settleTransfer (s s' : GameBase μ) (tail : List (GEvent μ)) (p : Nat)
    (h : LoadInv s)
    (hlp : s.loadingPromise = some p)
    (hlp' : s'.loadingPromise = none)
    (hev : s'.events = s.events ++ [GEvent.loaded] ++ tail)
    (ht : ∀ e ∈ tail, isLoadedEv e = false ∧ isLoadingUndef e = false) :
    LoadInv s' := by
  have hbs : loadBit s = 1 := by simp [loadBit, hlp]
  have hbs' : loadBit s' = 0 := by simp [loadBit, hlp']
  have hcount : ∀ q : GEvent μ → Bool, (∀ e ∈ tail, q e = false) →
      tail.countP q = 0 := by
    intro q hq
    rw [List.countP_eq_zero]
    intro a ha
    simp [hq a ha]
  refine ⟨?_, ?_⟩
  · rw [hev]
    simp only [List.countP_append, List.countP_cons, List.countP_nil,
      hcount isLoadedEv (fun e he => (ht e he).1),
      hcount isLoadingUndef (fun e he => (ht e he).2)]
    have := h.load_le
    rw [hbs] at this
    rw [hbs']
    simp [isLoadedEv, isLoadingUndef]
    omega
  · rw [hev]
    have h1 : ∀ n, ((s.events ++ [GEvent.loaded]).take n).countP isLoadedEv
        ≤ ((s.events ++ [GEvent.loaded]).take n).countP isLoadingUndef := by
      apply q_append _ _ _ _ h.qload
      have := h.load_le
      rw [hbs] at this
      simp [isLoadedEv, isLoadingUndef]
      omega
    exact q_append_list _ _ tail (s.events ++ [GEvent.loaded]) h1 ht
/-- An operation is load-neutral when it leaves `#loadingPromise` and
`#loaded` alone and only appends events that are neither `"loaded"` nor the
indeterminate `"loading"`. -/
def LoadNeutral (s s' : GameBase μ) : Prop :=
  s'.loadingPromise = s.loadingPromise ∧ s'.loaded = s.loaded ∧
  ∃ tail, s'.events = s.events ++ tail ∧
    ∀ e ∈ tail, isLoadedEv e = false ∧ isLoadingUndef e = false

theorem LoadNeutral.refl (s : GameBase μ) : LoadNeutral s s :=
  ⟨rfl, rfl, [], by simp [GameBase.updateRun], by simp⟩

theorem LoadNeutral.trans {s1 s2 s3 : GameBase μ}
    (h12 : LoadNeutral s1 s2) (h23 : LoadNeutral s2 s3) : LoadNeutral s1 s3 := by
  obtain ⟨hlp12, hld12, t12, he12, ht12⟩ := h12
  obtain ⟨hlp23, hld23, t23, he23, ht23⟩ := h23
  refine ⟨hlp23.trans hlp12, hld23.trans hld12, t12 ++ t23, ?_, ?_⟩
  · rw [he23, he12, List.append_assoc]
  · intro e he
    rcases List.mem_append.mp he with he | he
    · exact ht12 e he
    · exact ht23 e he

/-- A load-neutral step preserves `LoadInv`. -/
theorem LoadInv.ofNeutral {s s' : GameBase μ} (h : LoadInv s)
    (hn : LoadNeutral s s') : LoadInv s' := by
  obtain ⟨hlp, _, tail, hev, ht⟩ := hn
  exact loadInv_frameTransfer s s' tail h (by rw [loadBit, loadBit, hlp]) hev ht

theorem settleRet_loadNeutral (s : GameBase μ) (j : Nat) (res : RetResult μ) :
    LoadNeutral s (s.settleRet j res) := by
  rcases hf : s.findRun j with _ | r0
  · simp only [GameBase.settleRet, hf]
    exact LoadNeutral.refl s
  · rcases hp : r0.phase with _ | _ | _ | res0
    case settled =>
      simp only [GameBase.settleRet, hf, hp]
      exact LoadNeutral.refl s
    all_goals
      rcases res with g | _ | e <;>
        (simp only [GameBase.settleRet, hf, hp]
         split <;>
           exact ⟨rfl, rfl, [GEvent.endEvent _], rfl, by simp [isLoadedEv, isLoadingUndef]⟩)

theorem onCanceled_loadNeutral (s : GameBase μ) (j : Nat) :
    LoadNeutral s (s.onCanceledObserved j) := by
  rcases hrp : s.resetPromise with _ | p
  · simp only [GameBase.onCanceledObserved, hrp]
    exact settleRet_loadNeutral s j .canceled
  · simp only [GameBase.onCanceledObserved, hrp]
    exact ⟨rfl, rfl, [], by simp [GameBase.updateRun], by simp⟩

theorem startBody_loadNeutral (s : GameBase μ) (j : Nat) :
    LoadNeutral s (s.startBodyAfterLoad j) := by
  rcases hf : s.findRun j with _ | r0
  · simp only [GameBase.startBodyAfterLoad, hf]
    exact LoadNeutral.refl s
  · rcases hp : r0.phase with _ | _ | _ | res0 <;>
      simp only [GameBase.startBodyAfterLoad, hf, hp]
    case awaitingLoad =>
      rcases hc : r0.cancelFired with _ | _
      · simp only [Bool.false_eq_true, if_false]
        exact ⟨rfl, rfl, [], by simp [GameBase.updateRun], by simp⟩
      · simp only [if_true]
        exact LoadNeutral.trans
          (⟨rfl, rfl, [], by simp, by simp⟩ :
            LoadNeutral s ({ s with startImplCalls := s.startImplCalls + 1 } : GameBase μ))
          (onCanceled_loadNeutral _ j)
    all_goals exact LoadNeutral.refl s

theorem fireCancel_loadNeutral (s : GameBase μ) (j : Nat) :
    LoadNeutral s (s.fireCancelSignal j) := by
  rcases hf : s.findRun j with _ | r0
  · simp only [GameBase.fireCancelSignal, hf]
    exact LoadNeutral.refl s
  · rcases hc : r0.cancelFired with _ | _
    · rcases hp : r0.phase with _ | _ | _ | res0 <;>
        simp only [GameBase.fireCancelSignal, hf, hc, Bool.false_eq_true, if_false, hp]
      case racingCancel =>
        exact LoadNeutral.trans
          (⟨rfl, rfl, [], by simp [GameBase.updateRun], by simp⟩ :
            LoadNeutral s (s.updateRun j (fun r => { r with cancelFired := true })))
          (onCanceled_loadNeutral _ j)
      all_goals exact ⟨rfl, rfl, [], by simp [GameBase.updateRun], by simp⟩
    · simp only [GameBase.fireCancelSignal, hf, hc, if_true]
      exact LoadNeutral.refl s

theorem rejectResetWaiters_loadNeutral (ids : List Nat) :
    ∀ s : GameBase μ, LoadNeutral s (s.rejectResetWaiters ids) := by
  induction ids with
  | nil =>
    intro s
    exact LoadNeutral.refl s
  | cons j ids ih =>
    intro s
    exact LoadNeutral.trans (settleRet_loadNeutral s j .canceled)
      (ih (s.settleRet j .canceled))

theorem resumeLoadWaiters_loadNeutral (ids : List Nat) :
    ∀ s : GameBase μ, LoadNeutral s (s.resumeLoadWaiters ids) := by
  induction ids with
  | nil =>
    intro s
    exact LoadNeutral.refl s
  | cons j ids ih =>
    intro s
    exact LoadNeutral.trans (startBody_loadNeutral s j)
      (ih (s.startBodyAfterLoad j))

theorem rejectLoadWaiters_loadNeutral (err : Thrown) (ids : List Nat) :
    ∀ s : GameBase μ, LoadNeutral s (s.rejectLoadWaiters err ids) := by
  induction ids with
  | nil =>
    intro s
    exact LoadNeutral.refl s
  | cons j ids ih =>
    intro s
    exact LoadNeutral.trans (settleRet_loadNeutral s j (.thrown err))
      (ih (s.settleRet j (.thrown err)))

theorem settleResetChain_loadNeutral (s : GameBase μ) (raceRes : RaceResult) :
    LoadNeutral s (s.settleResetChain raceRes) := by
  rcases hc : s.resetChain with _ | c
  · simp only [GameBase.settleResetChain, hc]
    exact LoadNeutral.refl s
  · cases raceRes <;>
      (simp only [GameBase.settleResetChain, hc]
       exact LoadNeutral.trans
         (⟨rfl, rfl, [], by simp, by simp⟩ :
           LoadNeutral s ({ s with resetChain := none, resetLog := s.resetLog ++ [(c.pid, ResetOutcome.ok)], resetPromise := none } : GameBase μ))
         (rejectResetWaiters_loadNeutral _ _))

theorem settleGame_loadNeutral (s : GameBase μ) (j : Nat)
    (res : Except Thrown (GameEndEvent μ)) :
    LoadNeutral s (s.settleGame j res) := by
  rcases hf : s.findRun j with _ | r0
  · simp only [GameBase.settleGame, hf]
    exact LoadNeutral.refl s
  · rcases hp : r0.phase with _ | _ | _ | res0 <;>
      simp only [GameBase.settleGame, hf, hp]
    case racingCancel =>
      rcases res with e | g
      · exact settleRet_loadNeutral s j (.thrown e)
      · exact settleRet_loadNeutral s j (.ok g)
    case racingReset => exact settleRet_loadNeutral s j .canceled
    all_goals exact LoadNeutral.refl s

theorem reset_loadNeutral (s : GameBase μ) (t : Option Nat) :
    LoadNeutral s ((s.reset t).2) := by
  rcases hrp : s.resetPromise with _ | p
  · rcases hh : s.runningHandle with _ | j
    · simp only [GameBase.reset, hrp, hh]
      exact ⟨rfl, rfl, [], by simp [GameBase.updateRun], by simp⟩
    · simp only [GameBase.reset, hrp, hh]
      exact LoadNeutral.trans
        (⟨rfl, rfl, [], by simp, by simp⟩ :
          LoadNeutral s ({ s with nextId := s.nextId + 1, resetImplCalls := s.resetImplCalls + 1, resetChain := some { pid := s.nextId, timeoutMs := t.getD s.defaultResetTimeoutMs }, runningHandle := none, lastEnd := none, resetPromise := some s.nextId } : GameBase μ))
        (fireCancel_loadNeutral _ j)
  · simp only [GameBase.reset, hrp]
    exact LoadNeutral.refl s
theorem settleRet_runInv (s : GameBase μ) (j : Nat) (res : RetResult μ)
    (h : RunInv s) : RunInv (s.settleRet j res) := by
  rcases hf : s.findRun j with _ | r0
  · simpa only [GameBase.settleRet, hf] using h
  · rcases hp : r0.phase with _ | _ | _ | res0
    case settled => simpa only [GameBase.settleRet, hf, hp] using h
    all_goals
      obtain ⟨pre, post, hruns, hothers, hri⟩ := runs_decomp s j r0 hf h.uniq
      rw [settleRet_shape s pre post r0 j res hruns hri hothers (by rw [hp]; rfl)]
      rcases res with g | _ | e <;>
        exact runInv_settleTransfer s _ pre post r0
          { r0 with phase := RunPhase.settled _, cancelFired := true } _ h hruns rfl rfl rfl
          (by rw [hp]; rfl) rfl rfl

theorem onCanceled_runInv (s : GameBase μ) (j : Nat) (r0 : Run μ)
    (h : RunInv s) (hf : s.findRun j = some r0) (hpend : r0.phase.isSettled = false) :
    RunInv (s.onCanceledObserved j) := by
  rcases hrp : s.resetPromise with _ | p
  · simp only [GameBase.onCanceledObserved, hrp]
    exact settleRet_runInv s j .canceled h
  · simp only [GameBase.onCanceledObserved, hrp]
    obtain ⟨pre, post, hruns, hothers, hri⟩ := runs_decomp s j r0 hf h.uniq
    rw [updateRun_shape s pre post r0 j _ hruns hri hothers]
    exact runInv_pendTransfer s _ pre post r0 { r0 with phase := RunPhase.racingReset }
      h hruns rfl rfl rfl (by rw [hpend]; rfl) rfl

theorem fireCancel_runInv (s : GameBase μ) (j : Nat) (h : RunInv s) :
    RunInv (s.fireCancelSignal j) := by
  rcases hf : s.findRun j with _ | r0
  · simpa only [GameBase.fireCancelSignal, hf] using h
  · rcases hc : r0.cancelFired with _ | _
    case true => simpa only [GameBase.fireCancelSignal, hf, hc, if_true] using h
    case false =>
      obtain ⟨pre, post, hruns, hothers, hri⟩ := runs_decomp s j r0 hf h.uniq
      have hupd := updateRun_shape s pre post r0 j
        (fun r => { r with cancelFired := true }) hruns hri hothers
      have h1 : RunInv (s.updateRun j (fun r => { r with cancelFired := true })) := by
        rw [hupd]
        exact runInv_pendTransfer s _ pre post r0 { r0 with cancelFired := true }
          h hruns rfl rfl rfl rfl rfl
      rcases hp : r0.phase with _ | _ | _ | res0 <;>
        simp only [GameBase.fireCancelSignal, hf, hc, Bool.false_eq_true, if_false, hp]
      case racingCancel =>
        refine onCanceled_runInv _ j ({ r0 with cancelFired := true }) h1 ?_ ?_
        · rw [hupd]
          exact findRun_shape _ pre post _ j rfl hri hothers
        · show r0.phase.isSettled = false
          rw [hp]
          rfl
      all_goals exact h1

theorem startBody_runInv (s : GameBase μ) (j : Nat) (h : RunInv s) :
    RunInv (s.startBodyAfterLoad j) := by
  rcases hf : s.findRun j with _ | r0
  · simpa only [GameBase.startBodyAfterLoad, hf] using h
  · have h1 : RunInv ({ s with startImplCalls := s.startImplCalls + 1 } : GameBase μ) :=
      runInv_frameTransfer s _ [] h rfl (le_refl _) (by simp) (by simp)
    rcases hp : r0.phase with _ | _ | _ | res0 <;>
      simp only [GameBase.startBodyAfterLoad, hf, hp]
    case awaitingLoad =>
      obtain ⟨pre, post, hruns, hothers, hri⟩ := runs_decomp s j r0 hf h.uniq
      rcases hc : r0.cancelFired with _ | _
      · simp only [Bool.false_eq_true, if_false]
        rw [updateRun_shape _ pre post r0 j _ ?ha hri hothers]
        case ha => exact hruns
        exact runInv_pendTransfer _ _ pre post r0 { r0 with phase := RunPhase.racingCancel }
          h1 hruns rfl rfl rfl (by show RunPhase.racingCancel.isSettled = _; rw [hp]; rfl) rfl
      · simp only [if_true]
        refine onCanceled_runInv _ j r0 h1 hf ?_
        rw [hp]
        rfl
    all_goals exact h

theorem rejectResetWaiters_runInv (ids : List Nat) :
    ∀ s : GameBase μ, RunInv s → RunInv (s.rejectResetWaiters ids) := by
  induction ids with
  | nil =>
    intro s h
    simpa only [GameBase.rejectResetWaiters] using h
  | cons j ids ih =>
    intro s h
    exact ih (s.settleRet j .canceled) (settleRet_runInv s j .canceled h)

theorem resumeLoadWaiters_runInv (ids : List Nat) :
    ∀ s : GameBase μ, RunInv s → RunInv (s.resumeLoadWaiters ids) := by
  induction ids with
  | nil =>
    intro s h
    simpa only [GameBase.resumeLoadWaiters] using h
  | cons j ids ih =>
    intro s h
    exact ih (s.startBodyAfterLoad j) (startBody_runInv s j h)

theorem rejectLoadWaiters_runInv (err : Thrown) (ids : List Nat) :
    ∀ s : GameBase μ, RunInv s → RunInv (s.rejectLoadWaiters err ids) := by
  induction ids with
  | nil =>
    intro s h
    simpa only [GameBase.rejectLoadWaiters] using h
  | cons j ids ih =>
    intro s h
    exact ih (s.settleRet j (.thrown err)) (settleRet_runInv s j (.thrown err) h)

theorem settleGame_runInv (s : GameBase μ) (j : Nat) (res : Except Thrown (GameEndEvent μ))
    (h : RunInv s) : RunInv (s.settleGame j res) := by
  rcases hf : s.findRun j with _ | r0
  · simpa only [GameBase.settleGame, hf] using h
  · rcases hp : r0.phase with _ | _ | _ | res0 <;>
      simp only [GameBase.settleGame, hf, hp]
    case racingCancel =>
      rcases res with e | g
      · exact settleRet_runInv s j (.thrown e) h
      · exact settleRet_runInv s j (.ok g) h
    case racingReset => exact settleRet_runInv s j .canceled h
    all_goals exact h

theorem settleResetChain_runInv (s : GameBase μ) (raceRes : RaceResult) (h : RunInv s) :
    RunInv (s.settleResetChain raceRes) := by
  rcases hc : s.resetChain with _ | c
  · simpa only [GameBase.settleResetChain, hc] using h
  · cases raceRes <;>
      (simp only [GameBase.settleResetChain, hc]
       exact rejectResetWaiters_runInv _ _
         (runInv_frameTransfer s _ [] h rfl (le_refl _) (by simp) (by simp)))

theorem load_runInv (s : GameBase μ) (h : RunInv s) : RunInv ((s.load).2.2) := by
  rcases hl : s.loaded with _ | _
  case false =>
    rcases hlp : s.loadingPromise with _ | p
    · simp only [GameBase.load, hl, Bool.false_eq_true, if_false, hlp]
      exact runInv_frameTransfer s _ [GEvent.loading none] h rfl (Nat.le_succ _) rfl
        (by simp [isEndEv, isStartedEv])
    · simpa only [GameBase.load, hl, Bool.false_eq_true, if_false, hlp] using h
  case true =>
    simp only [GameBase.load, hl, if_true]
    exact runInv_frameTransfer s _ [] h rfl (Nat.le_succ _) (by simp) (by simp)

theorem load_frame (s : GameBase μ) :
    (s.load).2.2.runs = s.runs ∧ s.nextId ≤ (s.load).2.2.nextId := by
  rcases hl : s.loaded with _ | _
  case false =>
    rcases hlp : s.loadingPromise with _ | p <;>
      simp [GameBase.load, hl, hlp]
  case true =>
    simp [GameBase.load, hl]

theorem reset_runInv (s : GameBase μ) (t : Option Nat) (h : RunInv s) :
    RunInv ((s.reset t).2) := by
  rcases hrp : s.resetPromise with _ | p
  · rcases hh : s.runningHandle with _ | j
    · simp only [GameBase.reset, hrp, hh]
      exact runInv_frameTransfer s _ [] h rfl (Nat.le_succ _) (by simp) (by simp)
    · simp only [GameBase.reset, hrp, hh]
      exact fireCancel_runInv _ j
        (runInv_frameTransfer s _ [] h rfl (Nat.le_succ _) (by simp) (by simp))
  · simp only [GameBase.reset, hrp]
    exact h
theorem settleLoad_runInv (s : GameBase μ) (ok : Bool) (err : Thrown) (h : RunInv s) :
    RunInv (s.settleLoad ok err) := by
  rcases hlp : s.loadingPromise with _ | p
  · simpa only [GameBase.settleLoad, hlp] using h
  · rcases ok with _ | _
    · simp only [GameBase.settleLoad, hlp, Bool.false_eq_true, if_false]
      have hs1 : RunInv (s.rejectLoadWaiters err s.loadWaiters) :=
        rejectLoadWaiters_runInv err _ s h
      exact runInv_frameTransfer (s.rejectLoadWaiters err s.loadWaiters) _ [] hs1 rfl
        (le_refl _) (by simp) (by simp)
    · simp only [GameBase.settleLoad, hlp, if_true]
      have hs0 : RunInv ({ s with loadingPromise := some p, loaded := true, events := s.events ++ [GEvent.loaded] } : GameBase μ) :=
        runInv_frameTransfer s _ [GEvent.loaded] h rfl (le_refl _) rfl
          (by simp [isEndEv, isStartedEv])
      have hs1 : RunInv (({ s with loadingPromise := some p, loaded := true, events := s.events ++ [GEvent.loaded] } : GameBase μ).resumeLoadWaiters (({ s with loadingPromise := some p, loaded := true, events := s.events ++ [GEvent.loaded] } : GameBase μ).loadWaiters)) :=
        resumeLoadWaiters_runInv _ _ hs0
      exact runInv_frameTransfer _ _ [] hs1 rfl (le_refl _) (by simp) (by simp)

theorem progress_runInv (s : GameBase μ) (p : Int) (h : RunInv s) :
    RunInv (s.reportProgress p) := by
  rcases hl : s.loaded with _ | _ <;> simp only [GameBase.reportProgress, hl]
  · simp only [Bool.false_eq_true, if_false]
    exact runInv_frameTransfer s _ [GEvent.loading (some (max 0 (min 100 p)))] h rfl
      (le_refl _) rfl (by simp [isEndEv, isStartedEv])
  · simp only [if_true]
    exact h

theorem load_loadInv (s : GameBase μ) (h : LoadInv s) : LoadInv ((s.load).2.2) := by
  rcases hl : s.loaded with _ | _
  case true =>
    simp only [GameBase.load, hl, if_true]
    exact loadInv_frameTransfer s _ [] h (le_of_eq rfl) (by simp) (by simp)
  case false =>
    rcases hlp : s.loadingPromise with _ | p
    · simp only [GameBase.load, hl, Bool.false_eq_true, if_false, hlp]
      exact loadInv_freshTransfer s _ h hlp (by simp [loadBit]) rfl
    · simpa only [GameBase.load, hl, Bool.false_eq_true, if_false, hlp] using h

theorem settleLoad_loadInv (s : GameBase μ) (ok : Bool) (err : Thrown) (h : LoadInv s) :
    LoadInv (s.settleLoad ok err) := by
  rcases hlp : s.loadingPromise with _ | p
  · simpa only [GameBase.settleLoad, hlp] using h
  · rcases ok with _ | _
    · simp only [GameBase.settleLoad, hlp, Bool.false_eq_true, if_false]
      obtain ⟨hlp2, hld2, tail, hev, ht⟩ :=
        rejectLoadWaiters_loadNeutral err (GameBase.loadWaiters s) s
      exact loadInv_frameTransfer s _ tail h (by simp [loadBit]) hev ht
    · simp only [GameBase.settleLoad, hlp, if_true]
      obtain ⟨hlp2, hld2, tail, hev, ht⟩ :=
        resumeLoadWaiters_loadNeutral (GameBase.loadWaiters ({ s with loadingPromise := some p, loaded := true, events := s.events ++ [GEvent.loaded] } : GameBase μ)) ({ s with loadingPromise := some p, loaded := true, events := s.events ++ [GEvent.loaded] } : GameBase μ)
      exact loadInv_settleTransfer s _ tail p h hlp rfl hev ht

theorem progress_loadInv (s : GameBase μ) (p : Int) (h : LoadInv s) :
    LoadInv (s.reportProgress p) := by
  rcases hl : s.loaded with _ | _ <;> simp only [GameBase.reportProgress, hl]
  · simp only [Bool.false_eq_true, if_false]
    exact loadInv_frameTransfer s _ [GEvent.loading (some (max 0 (min 100 p)))] h
      (le_of_eq rfl) rfl (by simp [isLoadedEv, isLoadingUndef])
  · simp only [if_true]
    exact h

/-- The combined machine invariant behind the event-ordering claim. -/
def MachineInv (s : GameBase μ) : Prop := RunInv s ∧ LoadInv s

theorem start_step_inv (s : GameBase μ) (h : MachineInv s) :
    MachineInv (s.step Cmd.start) := by
  obtain ⟨hr, hl⟩ := h
  rcases hh : s.runningHandle with _ | j
  case some =>
    simp only [GameBase.step, GameBase.start, hh]
    exact ⟨hr, hl⟩
  case none =>
    have h1r : RunInv ({ s with runningHandle := none, lastEnd := none, nextId := s.nextId + 2 } : GameBase μ) :=
      runInv_frameTransfer s _ [] hr rfl (Nat.le_add_right _ 2) (by simp) (by simp)
    have h1l : LoadInv ({ s with runningHandle := none, lastEnd := none, nextId := s.nextId + 2 } : GameBase μ) :=
      loadInv_frameTransfer s _ [] hl (le_of_eq rfl) (by simp) (by simp)
    rcases hld : ({ s with runningHandle := none, lastEnd := none, nextId := s.nextId + 2 } : GameBase μ).load
      with ⟨pid, loadDone, s2⟩
    have h2r : RunInv s2 := by
      have := load_runInv _ h1r
      rw [hld] at this
      exact this
    have h2l : LoadInv s2 := by
      have := load_loadInv _ h1l
      rw [hld] at this
      exact this
    have hfr : s2.runs = s.runs ∧ s.nextId + 2 ≤ s2.nextId := by
      have := load_frame ({ s with runningHandle := none, lastEnd := none, nextId := s.nextId + 2 } : GameBase μ)
      rw [hld] at this
      exact this
    have h3r : RunInv ({ s2 with
        runs := s2.runs ++ [{ runId := s.nextId, retPid := s.nextId + 1,
                              phase := RunPhase.awaitingLoad, cancelFired := false }],
        runningHandle := some s.nextId,
        events := s2.events ++ [GEvent.started] } : GameBase μ) := by
      refine runInv_startTransfer s2 _
        ({ runId := s.nextId, retPid := s.nextId + 1,
           phase := RunPhase.awaitingLoad, cancelFired := false }) h2r rfl rfl ?_ ?_
        (le_refl _) rfl
      · intro x hx
        rw [hfr.1] at hx
        exact hr.fresh x hx
      · show s.nextId < s2.nextId
        omega
    have h3l : LoadInv ({ s2 with
        runs := s2.runs ++ [{ runId := s.nextId, retPid := s.nextId + 1,
                              phase := RunPhase.awaitingLoad, cancelFired := false }],
        runningHandle := some s.nextId,
        events := s2.events ++ [GEvent.started] } : GameBase μ) :=
      loadInv_frameTransfer s2 _ [GEvent.started] h2l (le_of_eq rfl) rfl
        (by simp [isLoadedEv, isLoadingUndef])
    simp only [GameBase.step, GameBase.start, hh, Option.isSome_none, Bool.false_eq_true,
      if_false, hld]
    rcases loadDone with _ | _
    · exact ⟨h3r, h3l⟩
    · exact ⟨startBody_runInv _ _ h3r, LoadInv.ofNeutral h3l (startBody_loadNeutral _ _)⟩

theorem step_inv (s : GameBase μ) (c : Cmd μ) (h : MachineInv s) : MachineInv (s.step c) := by
  obtain ⟨hr, hl⟩ := h
  cases c with
  | load => exact ⟨load_runInv s hr, load_loadInv s hl⟩
  | start => exact start_step_inv s ⟨hr, hl⟩
  | reset t => exact ⟨reset_runInv s t hr, LoadInv.ofNeutral hl (reset_loadNeutral s t)⟩
  | settleLoad ok err => exact ⟨settleLoad_runInv s ok err hr, settleLoad_loadInv s ok err hl⟩
  | settleGame j res =>
    exact ⟨settleGame_runInv s j res hr, LoadInv.ofNeutral hl (settleGame_loadNeutral s j res)⟩
  | settleReset ok err =>
    exact ⟨settleResetChain_runInv s _ hr,
      LoadInv.ofNeutral hl (settleResetChain_loadNeutral s _)⟩
  | fireResetTimer =>
    exact ⟨settleResetChain_runInv s .ok hr,
      LoadInv.ofNeutral hl (settleResetChain_loadNeutral s .ok)⟩
  | progress p => exact ⟨progress_runInv s p hr, progress_loadInv s p hl⟩

theorem exec_inv (cmds : List (Cmd μ)) :
    ∀ s : GameBase μ, MachineInv s → MachineInv (s.exec cmds) := by
  induction cmds with
  | nil =>
    intro s h
    simpa only [GameBase.exec] using h
  | cons c cmds ih =>
    intro s h
    exact ih (s.step c) (step_inv s c h)

theorem init_inv (name : String) (cid : Nat) : MachineInv (GameBase.init μ name cid) := by
  refine ⟨⟨?_, ?_, ?_, ?_⟩, ?_, ?_⟩ <;>
    simp [GameBase.init, pendingRuns, loadBit]

/-- C8: event emission follows the causal order of state transitions — in
every reachable trace (any stimulus sequence from a fresh instance) and at
every prefix of the event log, the `"loaded"` events never outnumber the
indeterminate `"loading"` events that start each load, and the `"end"`
events never outnumber the `"started"` events; hence every `"loaded"` is
preceded by the `"loading"` of the same load and every `"end"` is preceded
by the `"started"` of the same run. -/
theorem claim_C8_event_causal_order (name : String) (cid : Nat)
    (cmds : List (Cmd μ)) (n : Nat) :
    ((((GameBase.init μ name cid).exec cmds).events.take n).countP isLoadedEv
        ≤ (((GameBase.init μ name cid).exec cmds).events.take n).countP isLoadingUndef) ∧
    ((((GameBase.init μ name cid).exec cmds).events.take n).countP isEndEv
        ≤ (((GameBase.init μ name cid).exec cmds).events.take n).countP isStartedEv) := by
  have h := exec_inv cmds (GameBase.init μ name cid) (init_inv name cid)
  exact ⟨h.2.qload n, h.1.qrun n⟩
end GameSdk
